import Mathlib

/-!
Shallow embedding of the native multisig wallet program
(src/state.rs, src/error.rs, src/instruction.rs, src/processor/handler.rs)
and verification of its specification claims.

Machine integers are modelled as Nat (u8, u64) and Int (i64); u8 arithmetic
that can wrap is written with an explicit % 256.  Rust panics (slice out of
bounds, failing unwrap, division by zero on u8) are modelled as the distinct
error value ProgramError.RuntimePanic: on Solana a panic aborts the whole
transaction exactly like an error return, so both are failure outcomes with
no persisted state change.
-/

namespace NativeMultisig

/-- Account addresses (solana Pubkey, 32 bytes) are modelled as an opaque
countable identity type. -/
abbrev Pubkey := Nat

/-- state.rs: AccountType discriminator. -/
inductive AccountType
  | WalletConfig
  | WalletAuth
  | Proposal
  | VoteCount
deriving DecidableEq, Repr

/-- state.rs: ProposalType. -/
inductive ProposalType
  | Transfer (token_mint : Pubkey) (receive_account : Pubkey) (amount : Nat)
  | AddOwner (user : Pubkey)
  | ChangeProposalLifetime (duration : Int)
deriving DecidableEq, Repr

/-- error.rs: WalletError. -/
inductive WalletError
  | InvalidWalletParameters
  | TooShortLifetime
  | InvalidWalletAuth
  | OwnerWalletAuthCountMismatch
  | InvalidWalletAuthority
  | InvalidMint
  | IncorrectAssociatedTokenAccount
  | InvalidVoteCount
  | ProposalExpired
  | AlreadyVoted
  | IncorrectProposer
  | InsufficientVotes
  | IncorrectSendAccount
  | IncorrectReceiveAccount
  | MaximumOwnersReached
deriving DecidableEq, Repr

/-- The solana ProgramError variants used by the program, plus RuntimePanic
for Rust panics (which abort the transaction). -/
inductive ProgramError
  | Custom (e : WalletError)
  | MissingRequiredSignature
  | IncorrectProgramId
  | IllegalOwner
  | UninitializedAccount
  | InsufficientFunds
  | NotEnoughAccountKeys
  | InvalidInstructionData
  | BorshIoError
  | RuntimePanic
deriving DecidableEq, Repr

/-- state.rs: WalletConfig.  owner_identities is the [u8; 32] owner bitmap. -/
structure WalletConfig where
  discriminator : AccountType
  m : Nat
  n : Nat
  owners : Nat
  owner_identities : List Nat
  proposal_lifetime : Int
  is_initialized : Bool
deriving DecidableEq, Repr

/-- state.rs: WalletAuth. -/
structure WalletAuth where
  discriminator : AccountType
  owner : Pubkey
  wallet : Pubkey
  added_time : Int
  id : Nat
  is_initialized : Bool
deriving DecidableEq, Repr

/-- state.rs: Proposal. -/
structure Proposal where
  discriminator : AccountType
  wallet : Pubkey
  proposer : Pubkey
  proposal : ProposalType
  is_initialized : Bool
deriving DecidableEq, Repr

/-- state.rs: VoteCount.  vote_record is the [u8; 32] voter bitmap. -/
structure VoteCount where
  discriminator : AccountType
  proposed_time : Int
  votes : Nat
  vote_record : List Nat
  is_initialized : Bool
deriving DecidableEq, Repr

/-! ## Textual binary bit manipulation

handler.rs edits bitmap bytes by formatting a byte with format!("{:08b}", b),
editing one character of the resulting string, and reparsing it with
u8::from_str_radix(_, 2).  We model the 8-character binary string of a byte
as a List Bool (most significant digit first, character i of the string is
bit 7-i of the byte), string editing as List.set, and reparsing as a fold. -/

/-- The 8-character binary string of a byte, as produced by format!("{:08b}", b);
character i (a Bool) is bit 7-i of the byte. -/
def bitChars (b : Nat) : List Bool :=
  (List.range 8).map (fun i => b.testBit (7 - i))

/-- u8::from_str_radix(s, 2) on an 8-character binary string. -/
def charsToByte (l : List Bool) : Nat :=
  l.foldl (fun acc c => 2 * acc + (if c then 1 else 0)) 0

/-- String::replace_range(pos..pos+1, one digit) on the 8-character binary
string of a byte, followed by reparsing.  replace_range panics when the
range end exceeds the string length. -/
def replaceRangeBit (b : Nat) (pos : Nat) (v : Bool) : Except ProgramError Nat :=
  if pos < 8 then .ok (charsToByte ((bitChars b).set pos v))
  else .error .RuntimePanic

/-- Number of set bits of a byte (counted on its binary string). -/
def popByte (b : Nat) : Nat := (bitChars b).count true

/-- Number of set bits of a 32-byte bitmap. -/
def popcount (bm : List Nat) : Nat := (bm.map popByte).sum

/-- Bit of global index s in a 32-byte bitmap: character s % 8 of the binary
string of byte s / 8.  This is the program's slot-to-bit convention (all of
its bit tests and edits index characters of the formatted string). -/
def bitGet (bm : List Nat) (s : Nat) : Bool :=
  (bitChars (bm.getD (s / 8) 0)).getD (s % 8) false

/-! ### Basic facts about the binary-string codec -/

theorem bitChars_length (b : Nat) : (bitChars b).length = 8 := by
  simp [bitChars]

theorem charsToByte_append (l : List Bool) (c : Bool) :
    charsToByte (l ++ [c]) = 2 * charsToByte l + (if c then 1 else 0) := by
  simp [charsToByte]

theorem charsToByte_lt (l : List Bool) : charsToByte l < 2 ^ l.length := by
  induction l using List.reverseRecOn with
  | nil => simp [charsToByte]
  | append_singleton l c ih =>
      rw [charsToByte_append]
      simp only [List.length_append, List.length_singleton]
      have : 2 ^ (l.length + 1) = 2 * 2 ^ l.length := by ring
      rw [this]
      cases c <;> simp <;> omega

theorem testBit_charsToByte (l : List Bool) (k : Nat) (hk : k < l.length) :
    (charsToByte l).testBit k = l.getD (l.length - 1 - k) false := by
  induction l using List.reverseRecOn generalizing k with
  | nil => simp at hk
  | append_singleton l c ih =>
      rw [charsToByte_append]
      rcases Nat.eq_zero_or_pos k with hk0 | hkpos
      · subst hk0
        have : (2 * charsToByte l + (if c then 1 else 0)).testBit 0 = c := by
          cases c <;> simp [Nat.testBit_zero] <;> omega
        rw [this]
        have hlen : l.length + 1 - 1 - 0 = l.length := by omega
        simp only [List.length_append, List.length_singleton, hlen]
        simp [List.getD]
      · obtain ⟨k', rfl⟩ := Nat.exists_eq_add_of_le hkpos
        have hk' : k' < l.length := by
          simp only [List.length_append, List.length_singleton] at hk; omega
        have hdiv : (2 * charsToByte l + (if c then 1 else 0)) / 2 = charsToByte l := by
          cases c <;> simp <;> omega
        rw [Nat.add_comm 1 k', Nat.testBit_succ, hdiv, ih k' hk']
        have h1 : l.length + 1 - 1 - (k' + 1) = l.length - 1 - k' := by omega
        simp only [List.length_append, List.length_singleton, h1]
        have h2 : l.length - 1 - k' < l.length := by omega
        rw [List.getD_eq_getElem?_getD, List.getD_eq_getElem?_getD,
          List.getElem?_append_left h2]

theorem testBit_charsToByte_ge (l : List Bool) (k : Nat) (hk : l.length ≤ k) :
    (charsToByte l).testBit k = false := by
  have h := charsToByte_lt l
  exact Nat.testBit_eq_false_of_lt (lt_of_lt_of_le h (Nat.pow_le_pow_right (by omega) hk))

theorem bitChars_charsToByte (l : List Bool) (hl : l.length = 8) :
    bitChars (charsToByte l) = l := by
  apply List.ext_getElem
  · simp [bitChars_length, hl]
  · intro i h1 h2
    simp only [bitChars, List.getElem_map, List.getElem_range]
    have hi : i < 8 := by simpa [bitChars_length] using h1
    have h7 : 7 - i < l.length := by omega
    rw [testBit_charsToByte l (7 - i) h7]
    have : l.length - 1 - (7 - i) = i := by omega
    rw [this, List.getD_eq_getElem?_getD, List.getElem?_eq_getElem h2]
    rfl

theorem charsToByte_bitChars (b : Nat) (hb : b < 256) :
    charsToByte (bitChars b) = b := by
  apply Nat.eq_of_testBit_eq
  intro k
  rcases Nat.lt_or_ge k 8 with hk | hk
  · rw [testBit_charsToByte _ k (by simp [bitChars_length]; omega)]
    simp only [bitChars_length]
    have h7 : 7 - k < 8 := by omega
    simp only [bitChars]
    rw [List.getD_eq_getElem?_getD]
    rw [List.getElem?_map]
    simp only [List.getElem?_range h7, Option.map_some]
    have : 8 - 1 - k = 7 - k := by omega
    rw [this]
    have : 7 - (7 - k) = k := by omega
    simp [this]
  · rw [testBit_charsToByte_ge _ k (by simp [bitChars_length, hk])]
    have h2k : (256 : Nat) ≤ 2 ^ k :=
      le_trans (by norm_num : (256 : Nat) ≤ 2 ^ 8) (Nat.pow_le_pow_right (by omega) hk)
    exact (Nat.testBit_eq_false_of_lt (lt_of_lt_of_le hb h2k)).symm

theorem getD_set_self {α} (l : List α) (i : Nat) (x d : α) (h : i < l.length) :
    (l.set i x).getD i d = x := by
  rw [List.getD_eq_getElem?_getD, List.getElem?_set_self h]
  rfl

theorem getD_set_other {α} (l : List α) (i j : Nat) (x d : α) (h : i ≠ j) :
    (l.set i x).getD j d = l.getD j d := by
  rw [List.getD_eq_getElem?_getD, List.getElem?_set_ne h, ← List.getD_eq_getElem?_getD]

theorem count_set_true (l : List Bool) (p : Nat) (hp : p < l.length)
    (h : l.getD p false = false) :
    (l.set p true).count true = l.count true + 1 := by
  induction l generalizing p with
  | nil => simp at hp
  | cons a t ih =>
      cases p with
      | zero =>
          simp only [List.getD_cons_zero] at h
          subst h
          simp [List.set, List.count_cons]
      | succ p' =>
          simp only [List.length_cons] at hp
          simp only [List.getD_cons_succ] at h
          simp only [List.set, List.count_cons]
          rw [ih p' (by omega) h]
          omega

theorem count_set_false (l : List Bool) (p : Nat) (hp : p < l.length)
    (h : l.getD p false = true) :
    l.count true = (l.set p false).count true + 1 := by
  induction l generalizing p with
  | nil => simp at hp
  | cons a t ih =>
      cases p with
      | zero =>
          simp only [List.getD_cons_zero] at h
          subst h
          simp [List.set, List.count_cons]
      | succ p' =>
          simp only [List.length_cons] at hp
          simp only [List.getD_cons_succ] at h
          simp only [List.set, List.count_cons]
          rw [ih p' (by omega) h]
          omega

theorem popByte_charsToByte (l : List Bool) (hl : l.length = 8) :
    popByte (charsToByte l) = l.count true := by
  rw [popByte, bitChars_charsToByte l hl]

theorem popcount_set (bm : List Nat) (i : Nat) (x : Nat) (hi : i < bm.length) :
    popcount (bm.set i x) + popByte (bm.getD i 0) = popcount bm + popByte x := by
  induction bm generalizing i with
  | nil => simp at hi
  | cons b t ih =>
      cases i with
      | zero => simp [popcount, List.set]; omega
      | succ i' =>
          simp only [List.length_cons] at hi
          simp only [List.set, popcount, List.map_cons, List.sum_cons,
            List.getD_cons_succ]
          have := ih i' (by omega)
          simp only [popcount] at this
          omega

/-! ## Bitmap edit helpers used by the handlers -/

/-- The three-line pattern of give_up_ownership (handler.rs 338-344), vote
(handler.rs 536-544) and close_proposal/AddOwner: format byte id / 8 of the
record, replace character id % 8, reparse.  The replace index id % 8 is
always below the string length 8, so replace_range cannot panic here. -/
def setRecordBit (bm : List Nat) (id : Nat) (v : Bool) : List Nat :=
  bm.set (id / 8) (charsToByte ((bitChars (bm.getD (id / 8) 0)).set (id % 8) v))

/-- create_wallet, handler.rs 158-160: the loop writing 255 into the first
k bytes of the fresh bitmap. -/
def fill255 (l : List Nat) : Nat → List Nat
  | 0 => l
  | k + 1 => (fill255 l k).set k 255

/-- create_wallet, handler.rs 161-168: the binary string of the last owner
byte, (lastPos + 1) ones followed by zeros, reparsed to a byte. -/
def lastOwnerByte (lastPos : Nat) : Nat :=
  charsToByte (List.replicate (lastPos + 1) true ++ List.replicate (8 - (lastPos + 1)) false)

/-- create_wallet, handler.rs 154-168: the freshly initialized owner bitmap
for ownerCount owners. -/
def createBitmap (ownerCount : Nat) : List Nat :=
  let lastByte := (ownerCount - 1) / 8
  let lastPos := (ownerCount - 1) % 8
  (fill255 (List.replicate 32 0) lastByte).set lastByte (lastOwnerByte lastPos)

/-- create_proposal, handler.rs 457-466: a fresh 32-byte vote record whose
byte id / 8 is the parse of the string with a single 1 at character id % 8. -/
def singleBitRecord (id : Nat) : List Nat :=
  (List.replicate 32 0).set (id / 8)
    (charsToByte (List.replicate (id % 8) false ++ true :: List.replicate (8 - (id % 8) - 1) false))

/-- close_proposal/AddOwner, handler.rs 692-698: the loop finding the first
byte below 255 (byte_pos stays 0 when every byte is 255). -/
def firstNonFullAux : List Nat → Nat → Option Nat
  | [], _ => none
  | b :: rest, i => if b < 255 then some i else firstNonFullAux rest (i + 1)

def firstNonFullByte (bm : List Nat) : Nat := (firstNonFullAux bm 0).getD 0

/-- close_proposal/AddOwner, handler.rs 699-706: the loop counting leading
1 characters of the byte's binary string. -/
def leadingOnes (b : Nat) : Nat := ((bitChars b).takeWhile (fun c => c)).length

/-! ### Facts about the bitmap helpers -/

theorem length_setRecordBit (bm : List Nat) (id : Nat) (v : Bool) :
    (setRecordBit bm id v).length = bm.length := by
  simp [setRecordBit]

theorem mem_setRecordBit_lt (bm : List Nat) (id : Nat) (v : Bool)
    (h : ∀ b ∈ bm, b < 256) : ∀ b ∈ setRecordBit bm id v, b < 256 := by
  intro b hb
  rcases List.mem_or_eq_of_mem_set hb with h1 | h1
  · exact h b h1
  · subst h1
    have := charsToByte_lt ((bitChars (bm.getD (id / 8) 0)).set (id % 8) v)
    simpa [bitChars_length] using this

theorem getD_mem_of_lt {α} (l : List α) (i : Nat) (d : α) (h : i < l.length) :
    l.getD i d ∈ l := by
  rw [List.getD_eq_getElem?_getD, List.getElem?_eq_getElem h]
  exact List.getElem_mem h

theorem bitChars_set_roundtrip (b : Nat) (p : Nat) (v : Bool) :
    bitChars (charsToByte ((bitChars b).set p v)) = (bitChars b).set p v :=
  bitChars_charsToByte _ (by simp [bitChars_length])

theorem bitGet_setRecordBit_self (bm : List Nat) (id : Nat) (v : Bool)
    (hlen : id / 8 < bm.length) :
    bitGet (setRecordBit bm id v) id = v := by
  have hmod : id % 8 < 8 := Nat.mod_lt _ (by omega)
  unfold bitGet setRecordBit
  rw [getD_set_self _ _ _ _ hlen, bitChars_set_roundtrip,
    getD_set_self _ _ _ _ (by simp [bitChars_length]; omega)]

theorem bitGet_setRecordBit_other (bm : List Nat) (id j : Nat) (v : Bool)
    (hne : j ≠ id) :
    bitGet (setRecordBit bm id v) j = bitGet bm j := by
  unfold bitGet setRecordBit
  rcases Nat.lt_or_ge (id / 8) bm.length with hlen | hlen
  · by_cases hdiv : id / 8 = j / 8
    · rw [hdiv] at hlen ⊢
      rw [getD_set_self _ _ _ _ hlen, bitChars_set_roundtrip, ← hdiv,
        getD_set_other _ _ _ _ _ (by omega)]
    · rw [getD_set_other _ _ _ _ _ hdiv]
  · rw [List.set_eq_of_length_le hlen]

theorem popcount_setRecordBit_true (bm : List Nat) (id : Nat)
    (hlen : id / 8 < bm.length) (hwf : ∀ b ∈ bm, b < 256)
    (h : bitGet bm id = false) :
    popcount (setRecordBit bm id true) = popcount bm + 1 := by
  have hmod : id % 8 < 8 := Nat.mod_lt _ (by omega)
  have hbyte : bm.getD (id / 8) 0 < 256 := hwf _ (getD_mem_of_lt _ _ _ hlen)
  have hset := popcount_set bm (id / 8)
    (charsToByte ((bitChars (bm.getD (id / 8) 0)).set (id % 8) true)) hlen
  have hpop : popByte (charsToByte ((bitChars (bm.getD (id / 8) 0)).set (id % 8) true)) =
      popByte (bm.getD (id / 8) 0) + 1 := by
    rw [popByte_charsToByte _ (by simp [bitChars_length])]
    rw [popByte]
    exact count_set_true _ _ (by simp [bitChars_length]; omega) h
  unfold setRecordBit
  omega

theorem popcount_setRecordBit_false (bm : List Nat) (id : Nat)
    (hlen : id / 8 < bm.length) (hwf : ∀ b ∈ bm, b < 256)
    (h : bitGet bm id = true) :
    popcount bm = popcount (setRecordBit bm id false) + 1 := by
  have hmod : id % 8 < 8 := Nat.mod_lt _ (by omega)
  have hbyte : bm.getD (id / 8) 0 < 256 := hwf _ (getD_mem_of_lt _ _ _ hlen)
  have hset := popcount_set bm (id / 8)
    (charsToByte ((bitChars (bm.getD (id / 8) 0)).set (id % 8) false)) hlen
  have hpop : popByte (bm.getD (id / 8) 0) =
      popByte (charsToByte ((bitChars (bm.getD (id / 8) 0)).set (id % 8) false)) + 1 := by
    rw [popByte_charsToByte _ (by simp [bitChars_length])]
    rw [popByte]
    exact count_set_false _ _ (by simp [bitChars_length]; omega) h
  unfold setRecordBit
  omega

/-! ### The freshly created bitmap -/

theorem fill255_length (l : List Nat) (k : Nat) : (fill255 l k).length = l.length := by
  induction k with
  | zero => rfl
  | succ k ih => simp [fill255, ih]

theorem fill255_getD (l : List Nat) (k i : Nat) :
    (fill255 l k).getD i 0 = if i < k ∧ i < l.length then 255 else l.getD i 0 := by
  induction k with
  | zero =>
      have : ¬(i < 0 ∧ i < l.length) := by omega
      rw [fill255, if_neg this]
  | succ k ih =>
      unfold fill255
      by_cases hik : i = k
      · by_cases hil : i < l.length
        · rw [hik] at hil ⊢
          rw [getD_set_self _ _ _ _ (by rw [fill255_length]; exact hil)]
          have hc : k < k + 1 ∧ k < l.length := ⟨by omega, hil⟩
          rw [if_pos hc]
        · rw [List.set_eq_of_length_le (by rw [fill255_length]; omega), ih]
          have h1 : ¬(i < k ∧ i < l.length) := by omega
          have h2 : ¬(i < k + 1 ∧ i < l.length) := by omega
          rw [if_neg h1, if_neg h2]
      · rw [getD_set_other _ _ _ _ _ (Ne.symm hik), ih]
        by_cases h1 : i < k ∧ i < l.length
        · have h2 : i < k + 1 ∧ i < l.length := ⟨by omega, h1.2⟩
          rw [if_pos h1, if_pos h2]
        · have h2 : ¬(i < k + 1 ∧ i < l.length) := by
            rcases Nat.lt_or_ge i l.length with h | h
            · intro hc
              exact h1 ⟨by omega, h⟩
            · intro hc
              omega
          rw [if_neg h1, if_neg h2]

theorem createBitmap_length (oc : Nat) : (createBitmap oc).length = 32 := by
  simp [createBitmap, fill255_length]

theorem lastOwnerByte_lt (p : Nat) (hp : p < 8) : lastOwnerByte p < 256 := by
  have h := charsToByte_lt
    (List.replicate (p + 1) true ++ List.replicate (8 - (p + 1)) false)
  have hl : (List.replicate (p + 1) true ++ List.replicate (8 - (p + 1)) false).length = 8 := by
    simp
    omega
  rw [hl] at h
  exact h

theorem fill255_replicate_le (k : Nat) :
    ∀ b ∈ fill255 (List.replicate 32 0) k, b ≤ 255 := by
  induction k with
  | zero =>
      intro b hb
      rw [fill255] at hb
      have := List.eq_of_mem_replicate hb
      omega
  | succ k ih =>
      intro b hb
      unfold fill255 at hb
      rcases List.mem_or_eq_of_mem_set hb with h | h
      · exact ih b h
      · omega

theorem createBitmap_wf (oc : Nat) (h1 : 1 ≤ oc) (h2 : oc ≤ 255) :
    ∀ b ∈ createBitmap oc, b < 256 := by
  intro b hb
  unfold createBitmap at hb
  rcases List.mem_or_eq_of_mem_set hb with hmem | heq
  · have := fill255_replicate_le _ _ hmem
    omega
  · subst heq
    exact lastOwnerByte_lt _ (Nat.mod_lt _ (by omega))

/-- Character j of the binary string of the last owner byte: 1 up to and
including lastPos, 0 after. -/
theorem bitChars_lastOwnerByte (p : Nat) (hp : p < 8) (j : Nat) (hj : j < 8) :
    (bitChars (lastOwnerByte p)).getD j false = decide (j ≤ p) := by
  unfold lastOwnerByte
  rw [bitChars_charsToByte _ (by simp; omega)]
  rcases Nat.lt_or_ge j (p + 1) with hjp | hjp
  · rw [List.getD_eq_getElem?_getD, List.getElem?_append_left (by simp; omega),
      List.getElem?_replicate]
    have hd : decide (j ≤ p) = true := by simp; omega
    rw [if_pos hjp, hd]
    rfl
  · rw [List.getD_eq_getElem?_getD, List.getElem?_append_right (by simp; omega)]
    simp only [List.length_replicate]
    rw [List.getElem?_replicate]
    have hrange : j - (p + 1) < 8 - (p + 1) := by omega
    have hd : decide (j ≤ p) = false := by simp; omega
    rw [if_pos hrange, hd]
    rfl

theorem bitChars_255_getD (j : Nat) (hj : j < 8) :
    (bitChars 255).getD j false = true := by
  have h : bitChars 255 = List.replicate 8 true := by decide
  rw [h, List.getD_eq_getElem?_getD, List.getElem?_replicate, if_pos hj]
  rfl

theorem bitChars_0_getD (j : Nat) (hj : j < 8) :
    (bitChars 0).getD j false = false := by
  have h : bitChars 0 = List.replicate 8 false := by decide
  rw [h, List.getD_eq_getElem?_getD, List.getElem?_replicate, if_pos hj]
  rfl

/-- The created bitmap has exactly the character-order bits 0 .. ownerCount-1
set: bit g is set iff g < ownerCount. -/
theorem bitGet_createBitmap (oc g : Nat) (h1 : 1 ≤ oc) (h2 : oc ≤ 255)
    (hg : g < 256) :
    bitGet (createBitmap oc) g = decide (g < oc) := by
  have hlb : (oc - 1) / 8 < 32 := by omega
  have hmod : g % 8 < 8 := Nat.mod_lt _ (by omega)
  have hgdiv : g / 8 < 32 := by omega
  unfold bitGet createBitmap
  by_cases hdiv : g / 8 = (oc - 1) / 8
  · rw [hdiv, getD_set_self _ _ _ _ (by rw [fill255_length]; simpa)]
    rw [bitChars_lastOwnerByte _ (Nat.mod_lt _ (by omega)) _ hmod]
    by_cases hle : g % 8 ≤ (oc - 1) % 8
    · have hd1 : decide (g % 8 ≤ (oc - 1) % 8) = true := by simp; omega
      have hd2 : decide (g < oc) = true := by simp; omega
      rw [hd1, hd2]
    · have hd1 : decide (g % 8 ≤ (oc - 1) % 8) = false := by simp; omega
      have hd2 : decide (g < oc) = false := by simp; omega
      rw [hd1, hd2]
  · rw [getD_set_other _ _ _ _ _ (Ne.symm hdiv), fill255_getD]
    by_cases hlt : g / 8 < (oc - 1) / 8
    · have hcond : g / 8 < (oc - 1) / 8 ∧ g / 8 < (List.replicate 32 0 : List Nat).length := by
        constructor
        · exact hlt
        · simpa
      rw [if_pos hcond, bitChars_255_getD _ hmod]
      have : decide (g < oc) = true := by simp; omega
      rw [this]
    · have hgt : (oc - 1) / 8 < g / 8 := by omega
      have hcond : ¬(g / 8 < (oc - 1) / 8 ∧
          g / 8 < (List.replicate 32 0 : List Nat).length) := by
        intro hc
        omega
      have hinner : (List.replicate 32 0 : List Nat).getD (g / 8) 0 = 0 := by
        rw [List.getD_eq_getElem?_getD, List.getElem?_replicate, if_pos hgdiv]
        rfl
      rw [if_neg hcond, hinner, bitChars_0_getD _ hmod]
      have : decide (g < oc) = false := by simp; omega
      rw [this]

theorem popByte_255 : popByte 255 = 8 := by decide

theorem popByte_zero : popByte 0 = 0 := by decide

theorem popByte_lastOwnerByte (p : Nat) (hp : p < 8) :
    popByte (lastOwnerByte p) = p + 1 := by
  unfold lastOwnerByte
  rw [popByte_charsToByte _ (by simp; omega)]
  rw [List.count_append, List.count_replicate, List.count_replicate]
  simp

theorem popcount_fill255 (k : Nat) (hk : k ≤ 32) :
    popcount (fill255 (List.replicate 32 0) k) = 8 * k := by
  induction k with
  | zero =>
      show popcount (List.replicate 32 0) = 0
      rw [popcount, List.map_replicate, popByte_zero, List.sum_replicate]
      simp
  | succ k ih =>
      have hk' : k ≤ 32 := by omega
      unfold fill255
      have hset := popcount_set (fill255 (List.replicate 32 0) k) k 255
        (by rw [fill255_length]; simp; omega)
      have hgd : (fill255 (List.replicate 32 0) k).getD k 0 = 0 := by
        rw [fill255_getD]
        have hc : ¬(k < k ∧ k < (List.replicate 32 0 : List Nat).length) := by omega
        rw [if_neg hc, List.getD_eq_getElem?_getD, List.getElem?_replicate,
          if_pos (by omega)]
        rfl
      rw [hgd, popByte_zero, popByte_255, ih hk'] at hset
      omega

theorem popcount_createBitmap (oc : Nat) (h1 : 1 ≤ oc) (h2 : oc ≤ 255) :
    popcount (createBitmap oc) = oc := by
  have hlb : (oc - 1) / 8 < 32 := by omega
  have hlp : (oc - 1) % 8 < 8 := Nat.mod_lt _ (by omega)
  have hset := popcount_set (fill255 (List.replicate 32 0) ((oc - 1) / 8))
    ((oc - 1) / 8) (lastOwnerByte ((oc - 1) % 8))
    (by rw [fill255_length]; simpa)
  have hgd : (fill255 (List.replicate 32 0) ((oc - 1) / 8)).getD ((oc - 1) / 8) 0 = 0 := by
    rw [fill255_getD]
    have hc : ¬((oc - 1) / 8 < (oc - 1) / 8 ∧
        (oc - 1) / 8 < (List.replicate 32 0 : List Nat).length) := by omega
    rw [if_neg hc, List.getD_eq_getElem?_getD, List.getElem?_replicate,
      if_pos (by omega)]
    rfl
  rw [hgd, popByte_zero, popByte_lastOwnerByte _ hlp,
    popcount_fill255 _ (by omega)] at hset
  show popcount ((fill255 (List.replicate 32 0) ((oc - 1) / 8)).set ((oc - 1) / 8)
    (lastOwnerByte ((oc - 1) % 8))) = oc
  omega

/-! ### The AddOwner free-slot scan -/

theorem firstNonFullAux_some (l : List Nat) (i : Nat) (hwf : ∀ b ∈ l, b < 256)
    (h : ∃ b ∈ l, b < 255) :
    ∃ k, k < l.length ∧ firstNonFullAux l i = some (i + k) ∧ l.getD k 0 < 255 ∧
      ∀ j, j < k → l.getD j 0 = 255 := by
  induction l generalizing i with
  | nil => simp at h
  | cons b t ih =>
      by_cases hb : b < 255
      · refine ⟨0, by simp, ?_, by simpa, by omega⟩
        simp [firstNonFullAux, hb]
      · have hb' : b = 255 := by
          have := hwf b (by simp)
          omega
        have ht : ∃ x ∈ t, x < 255 := by
          rcases h with ⟨x, hx, hxlt⟩
          rcases List.mem_cons.mp hx with rfl | hx'
          · omega
          · exact ⟨x, hx', hxlt⟩
        obtain ⟨k, hk1, hk2, hk3, hk4⟩ := ih (i + 1) (fun x hx => hwf x (by simp [hx])) ht
        refine ⟨k + 1, by simp; omega, ?_, by simpa using hk3, ?_⟩
        · show firstNonFullAux (b :: t) i = some (i + (k + 1))
          simp only [firstNonFullAux, if_neg hb]
          rw [hk2]
          congr 1
          omega
        · intro j hj
          cases j with
          | zero => simpa using hb'
          | succ j' =>
              simp only [List.getD_cons_succ]
              exact hk4 j' (by omega)

theorem firstNonFullByte_spec (bm : List Nat) (hwf : ∀ b ∈ bm, b < 256)
    (h : ∃ b ∈ bm, b < 255) :
    firstNonFullByte bm < bm.length ∧ bm.getD (firstNonFullByte bm) 0 < 255 ∧
      ∀ j, j < firstNonFullByte bm → bm.getD j 0 = 255 := by
  obtain ⟨k, hk1, hk2, hk3, hk4⟩ := firstNonFullAux_some bm 0 hwf h
  have : firstNonFullByte bm = k := by
    rw [firstNonFullByte, hk2]
    simp
  rw [this]
  exact ⟨hk1, hk3, hk4⟩

theorem takeWhile_true_spec (l : List Bool) :
    (l.takeWhile (fun c => c)).length ≤ l.length ∧
    (∀ j, j < (l.takeWhile (fun c => c)).length → l.getD j false = true) ∧
    ((l.takeWhile (fun c => c)).length < l.length →
      l.getD ((l.takeWhile (fun c => c)).length) false = false) := by
  induction l with
  | nil => simp
  | cons c t ih =>
      cases c with
      | false =>
          refine ⟨by simp [List.takeWhile], by simp [List.takeWhile], ?_⟩
          intro _
          simp [List.takeWhile]
      | true =>
          have hcons : ((true :: t).takeWhile (fun c => c)) = true :: t.takeWhile (fun c => c) := by
            simp [List.takeWhile]
          refine ⟨?_, ?_, ?_⟩
          · rw [hcons]
            simp
            exact ih.1
          · intro j hj
            rw [hcons] at hj
            simp only [List.length_cons] at hj
            cases j with
            | zero => simp
            | succ j' =>
                simp only [List.getD_cons_succ]
                exact ih.2.1 j' (by omega)
          · intro hlt
            rw [hcons] at hlt ⊢
            simp only [List.length_cons] at hlt ⊢
            simp only [List.getD_cons_succ]
            exact ih.2.2 (by omega)

theorem leadingOnes_le_8 (b : Nat) : leadingOnes b ≤ 8 := by
  have := (takeWhile_true_spec (bitChars b)).1
  rw [bitChars_length] at this
  exact this

theorem leadingOnes_chars_true (b : Nat) :
    ∀ j, j < leadingOnes b → (bitChars b).getD j false = true :=
  (takeWhile_true_spec (bitChars b)).2.1

theorem all_chars_true_eq_255 (b : Nat) (hb : b < 256)
    (h : ∀ j, j < 8 → (bitChars b).getD j false = true) : b = 255 := by
  have hchars : bitChars b = List.replicate 8 true := by
    apply List.ext_getElem
    · simp [bitChars_length]
    · intro i h1 h2
      have hi : i < 8 := by simpa [bitChars_length] using h1
      have := h i hi
      rw [List.getD_eq_getElem?_getD, List.getElem?_eq_getElem h1] at this
      simp only [Option.getD_some] at this
      rw [this, List.getElem_replicate]
  have hround := charsToByte_bitChars b hb
  rw [hchars] at hround
  have : charsToByte (List.replicate 8 true) = 255 := by decide
  omega

theorem leadingOnes_lt_8 (b : Nat) (hb : b < 255) : leadingOnes b < 8 := by
  rcases Nat.lt_or_ge (leadingOnes b) 8 with h | h
  · exact h
  · exfalso
    have h8 : leadingOnes b = 8 := by
      have := leadingOnes_le_8 b
      omega
    have := all_chars_true_eq_255 b (by omega)
      (fun j hj => leadingOnes_chars_true b j (by omega))
    omega

theorem leadingOnes_char_false (b : Nat) (hb : b < 255) :
    (bitChars b).getD (leadingOnes b) false = false := by
  have hlt := leadingOnes_lt_8 b hb
  have := (takeWhile_true_spec (bitChars b)).2.2
  rw [bitChars_length] at this
  exact this hlt

theorem popByte_le_8 (b : Nat) : popByte b ≤ 8 := by
  have := List.count_le_length (l := bitChars b) (a := true)
  rw [bitChars_length] at this
  exact this

theorem exists_nonfull_of_popcount_lt (bm : List Nat) (hlen : bm.length = 32)
    (hwf : ∀ b ∈ bm, b < 256) (h : popcount bm < 256) : ∃ b ∈ bm, b < 255 := by
  by_contra hall
  push_neg at hall
  have hrep : bm = List.replicate 32 255 := by
    apply List.ext_getElem
    · simp [hlen]
    · intro i h1 h2
      have hmem : bm[i] ∈ bm := List.getElem_mem h1
      have h1' := hwf _ hmem
      have h2' := hall _ hmem
      rw [List.getElem_replicate]
      omega
  rw [hrep] at h
  have : popcount (List.replicate 32 255) = 256 := by
    rw [popcount, List.map_replicate, popByte_255, List.sum_replicate]
    rfl
  omega

/-- The AddOwner scan (first byte below 255, then leading ones of its binary
string) finds precisely the least unset global bit index. -/
theorem scan_finds_lowest_unset (bm : List Nat) (hlen : bm.length = 32)
    (hwf : ∀ b ∈ bm, b < 256) (hpc : popcount bm < 256) :
    firstNonFullByte bm < 32 ∧
    leadingOnes (bm.getD (firstNonFullByte bm) 0) < 8 ∧
    bitGet bm (firstNonFullByte bm * 8 + leadingOnes (bm.getD (firstNonFullByte bm) 0)) = false ∧
    ∀ g, g < firstNonFullByte bm * 8 + leadingOnes (bm.getD (firstNonFullByte bm) 0) →
      bitGet bm g = true := by
  have hex := exists_nonfull_of_popcount_lt bm hlen hwf hpc
  obtain ⟨hbp, hbyte, hprev⟩ := firstNonFullByte_spec bm hwf hex
  rw [hlen] at hbp
  have hbit := leadingOnes_lt_8 _ hbyte
  refine ⟨hbp, hbit, ?_, ?_⟩
  · unfold bitGet
    have hdiv : (firstNonFullByte bm * 8 + leadingOnes (bm.getD (firstNonFullByte bm) 0)) / 8 =
        firstNonFullByte bm := by omega
    have hmod : (firstNonFullByte bm * 8 + leadingOnes (bm.getD (firstNonFullByte bm) 0)) % 8 =
        leadingOnes (bm.getD (firstNonFullByte bm) 0) := by omega
    rw [hdiv, hmod]
    exact leadingOnes_char_false _ hbyte
  · intro g hg
    unfold bitGet
    rcases Nat.lt_or_ge (g / 8) (firstNonFullByte bm) with hgd | hgd
    · rw [hprev _ hgd]
      exact bitChars_255_getD _ (Nat.mod_lt _ (by omega))
    · have hgdeq : g / 8 = firstNonFullByte bm := by omega
      have hgm : g % 8 < leadingOnes (bm.getD (firstNonFullByte bm) 0) := by omega
      rw [hgdeq]
      exact leadingOnes_chars_true _ _ hgm

/-! ## Accounts and derived addresses

Program-derived addresses are deterministic functions of their seeds with no
signing key; we model find_program_address for the three seed shapes used by
handler.rs as injective encodings into the Pubkey space. -/

/-- find_program_address(["owner", wallet, user]) — the owner-binding domain. -/
def pdaOwner (wallet user : Pubkey) : Pubkey := Nat.pair 1 (Nat.pair wallet user)

/-- find_program_address(["authority", wallet]) — the signing-authority domain. -/
def pdaAuthority (wallet : Pubkey) : Pubkey := Nat.pair 2 wallet

/-- find_program_address(["votes", wallet, proposal]) — the vote-record domain. -/
def pdaVotes (wallet proposal : Pubkey) : Pubkey := Nat.pair 3 (Nat.pair wallet proposal)

def SYSTEM_PROGRAM_ID : Pubkey := 11

def TOKEN_PROGRAM_ID : Pubkey := 12

/-- An account that only contributes its key, signer flag and lamports. -/
structure UserAccount where
  key : Pubkey
  is_signer : Bool
  lamports : Nat
deriving DecidableEq, Repr

/-- The wallet config account: key, signer flag, owning program, lamports
and deserialized WalletConfig data. -/
structure ConfigAccount where
  key : Pubkey
  is_signer : Bool
  owner_prog : Pubkey
  lamports : Nat
  data : WalletConfig
deriving DecidableEq, Repr

structure AuthAccount where
  key : Pubkey
  owner_prog : Pubkey
  lamports : Nat
  data : WalletAuth
deriving DecidableEq, Repr

structure ProposalAccount where
  key : Pubkey
  owner_prog : Pubkey
  lamports : Nat
  data : Proposal
deriving DecidableEq, Repr

structure VoteAccount where
  key : Pubkey
  lamports : Nat
  data : VoteCount
deriving DecidableEq, Repr

/-- The fields of an spl_token Account the program reads after unpack. -/
structure TokenAccountData where
  mint : Pubkey
  owner : Pubkey
  amount : Nat
deriving DecidableEq, Repr

structure TokenAccount where
  key : Pubkey
  data : TokenAccountData
deriving DecidableEq, Repr

/-! ## create_wallet (handler.rs 34-181) -/

structure CreateWalletInput where
  program_id : Pubkey
  m : Nat
  n : Nat
  owners : List Pubkey
  proposal_lifetime : Int
  user : UserAccount
  wallet_config_key : Pubkey
  wallet_config_is_signer : Bool
  wallet_auth_key : Pubkey
  system_program_key : Pubkey
  other_auth_keys : List Pubkey
  now : Int
deriving DecidableEq, Repr

structure CreateWalletResult where
  config : WalletConfig
  auths : List WalletAuth
deriving DecidableEq, Repr

/-- handler.rs 105-139: the loop creating one WalletAuth per extra owner,
checking each supplied account against the owner-binding derivation and
assigning ascending ids starting from 1. -/
def buildOtherAuths (wallet : Pubkey) (now : Int) :
    List Pubkey → List Pubkey → Nat → Except ProgramError (List WalletAuth)
  | [], _, _ => .ok []
  | _ :: _, [], _ => .error .NotEnoughAccountKeys
  | owner :: owners, authKey :: keys, id =>
      if authKey ≠ pdaOwner wallet owner then .error (.Custom .InvalidWalletAuth)
      else
        match buildOtherAuths wallet now owners keys (id + 1) with
        | .error e => .error e
        | .ok tail =>
            .ok ({ discriminator := .WalletAuth, owner := owner, wallet := wallet,
                   added_time := now, id := id, is_initialized := true } :: tail)

def create_wallet (inp : CreateWalletInput) : Except ProgramError CreateWalletResult :=
  if inp.m = 0 ∨ inp.n < inp.m then .error (.Custom .InvalidWalletParameters)
  else if inp.proposal_lifetime < 600 then .error (.Custom .TooShortLifetime)
  else if ¬(inp.user.is_signer ∧ inp.wallet_config_is_signer) then
    .error .MissingRequiredSignature
  else if inp.wallet_auth_key ≠ pdaOwner inp.wallet_config_key inp.user.key then
    .error (.Custom .InvalidWalletAuth)
  else if inp.system_program_key ≠ SYSTEM_PROGRAM_ID then .error .IncorrectProgramId
  else if inp.owners.length ≠ inp.other_auth_keys.length then
    .error (.Custom .OwnerWalletAuthCountMismatch)
  else
    match buildOtherAuths inp.wallet_config_key inp.now inp.owners inp.other_auth_keys 1 with
    | .error e => .error e
    | .ok others =>
        let ownerCount := 1 + inp.owners.length
        -- owner_count.try_into::<u8>().unwrap() panics above 255
        if ownerCount ≤ 255 then
          .ok { config := { discriminator := .WalletConfig, m := inp.m, n := inp.n,
                            owners := ownerCount,
                            owner_identities := createBitmap ownerCount,
                            proposal_lifetime := inp.proposal_lifetime,
                            is_initialized := true },
                auths := { discriminator := .WalletAuth, owner := inp.user.key,
                           wallet := inp.wallet_config_key, added_time := inp.now,
                           id := 0, is_initialized := true } :: others }
        else .error .RuntimePanic

/-! ## give_up_ownership (handler.rs 247-350) -/

structure GiveUpExtras where
  wallet_authority_key : Pubkey
  token_program_key : Pubkey
  pairs : List (TokenAccount × Pubkey)
deriving DecidableEq, Repr

structure GiveUpInput where
  program_id : Pubkey
  user : UserAccount
  wallet_config : ConfigAccount
  wallet_auth : AuthAccount
  extras : Option GiveUpExtras
deriving DecidableEq, Repr

/-- The total number of accounts supplied to the GiveupOwnership instruction:
user, wallet_config, wallet_auth, and when present the wallet authority,
token program and the (send, receive) pairs. -/
def giveUpAccountCount (inp : GiveUpInput) : Nat :=
  3 + (match inp.extras with
       | none => 0
       | some e => 2 + 2 * e.pairs.length)

structure GiveUpResult where
  user_details : WalletAuth
  wallet_details : WalletConfig
  user_lamports : Nat
  transfers : List (Pubkey × Pubkey × Nat)
deriving DecidableEq, Repr

def give_up_ownership (inp : GiveUpInput) : Except ProgramError GiveUpResult :=
  if ¬ inp.user.is_signer then .error .MissingRequiredSignature
  else if inp.wallet_config.owner_prog ≠ inp.program_id then .error .IllegalOwner
  else if ¬ inp.wallet_config.data.is_initialized then .error .UninitializedAccount
  else if inp.wallet_auth.key ≠ pdaOwner inp.wallet_config.key inp.user.key then
    .error (.Custom .InvalidWalletAuth)
  else if ¬ inp.wallet_auth.data.is_initialized then .error .UninitializedAccount
  else
    let user_details := { inp.wallet_auth.data with is_initialized := false }
    let lam1 := inp.user.lamports + inp.wallet_auth.lamports
    if inp.wallet_config.data.owners = 1 then
      let wallet_details := { inp.wallet_config.data with is_initialized := false }
      let lam2 := lam1 + inp.wallet_config.lamports
      -- handler.rs 292: the early-return test is accounts.iter().len() == 0,
      -- a FRESH iterator over all instruction accounts — never 0 here, since
      -- user, wallet_config and wallet_auth are always present
      if giveUpAccountCount inp = 0 then
        .ok { user_details := user_details, wallet_details := wallet_details,
              user_lamports := lam2, transfers := [] }
      else
        match inp.extras with
        | none => .error .NotEnoughAccountKeys
        | some e =>
            if e.wallet_authority_key ≠ pdaAuthority inp.wallet_config.key then
              .error (.Custom .InvalidWalletAuthority)
            else if e.token_program_key ≠ TOKEN_PROGRAM_ID then .error .IncorrectProgramId
            else
              .ok { user_details := user_details, wallet_details := wallet_details,
                    user_lamports := lam2,
                    transfers := e.pairs.map (fun p => (p.1.key, p.2, p.1.data.amount)) }
    else
      let owner_id := inp.wallet_auth.data.id
      .ok { user_details := user_details,
            wallet_details := { inp.wallet_config.data with
              owner_identities :=
                setRecordBit inp.wallet_config.data.owner_identities owner_id false,
              -- u8 wrapping decrement of the owner count
              owners := (inp.wallet_config.data.owners + 255) % 256 },
            user_lamports := lam1, transfers := [] }

/-! ## create_proposal (handler.rs 352-477) -/

structure CreateProposalInput where
  program_id : Pubkey
  user : UserAccount
  wallet_config : ConfigAccount
  wallet_auth : AuthAccount
  proposal_key : Pubkey
  proposal_is_signer : Bool
  vote_count_key : Pubkey
  system_program_key : Pubkey
  new_proposal : ProposalType
  now : Int
deriving DecidableEq, Repr

structure CreateProposalResult where
  proposal : Proposal
  vote_count : VoteCount
deriving DecidableEq, Repr

def create_proposal (inp : CreateProposalInput) : Except ProgramError CreateProposalResult :=
  if ¬ inp.user.is_signer then .error .MissingRequiredSignature
  else if inp.wallet_config.owner_prog ≠ inp.program_id then .error .IllegalOwner
  else if inp.wallet_auth.owner_prog ≠ inp.program_id then .error .IllegalOwner
  else if inp.wallet_auth.key ≠ pdaOwner inp.wallet_config.key inp.user.key then
    .error (.Custom .InvalidWalletAuth)
  else if ¬ inp.proposal_is_signer then .error .MissingRequiredSignature
  else if inp.vote_count_key ≠ pdaVotes inp.wallet_config.key inp.proposal_key then
    .error (.Custom .InvalidVoteCount)
  else if inp.system_program_key ≠ SYSTEM_PROGRAM_ID then .error .IncorrectProgramId
  else if (match inp.new_proposal with
           | .ChangeProposalLifetime duration => decide (duration < 600)
           | _ => false) then .error (.Custom .TooShortLifetime)
  else if ¬ inp.wallet_auth.data.is_initialized then .error .UninitializedAccount
  else
    .ok { proposal := { discriminator := .Proposal, wallet := inp.wallet_config.key,
                        proposer := inp.user.key, proposal := inp.new_proposal,
                        is_initialized := true },
          vote_count := { discriminator := .VoteCount, proposed_time := inp.now,
                          votes := 1,
                          vote_record := singleBitRecord inp.wallet_auth.data.id,
                          is_initialized := true } }

/-! ## vote (handler.rs 479-549) -/

structure VoteInput where
  program_id : Pubkey
  user : UserAccount
  wallet_config : ConfigAccount
  wallet_auth : AuthAccount
  proposal : ProposalAccount
  vote_count : VoteAccount
  now : Int
deriving DecidableEq, Repr

def vote (inp : VoteInput) : Except ProgramError VoteCount :=
  if ¬ inp.user.is_signer then .error .MissingRequiredSignature
  else if inp.wallet_config.owner_prog ≠ inp.program_id then .error .IllegalOwner
  else if inp.wallet_auth.key ≠ pdaOwner inp.wallet_config.key inp.user.key then
    .error (.Custom .InvalidWalletAuth)
  else if inp.proposal.owner_prog ≠ inp.program_id then .error .IllegalOwner
  else if inp.vote_count.key ≠ pdaVotes inp.wallet_config.key inp.proposal.key then
    .error (.Custom .InvalidVoteCount)
  else if ¬ inp.wallet_config.data.is_initialized then .error .UninitializedAccount
  else if ¬ inp.vote_count.data.is_initialized then .error .UninitializedAccount
  else if inp.now > inp.vote_count.data.proposed_time +
      inp.wallet_config.data.proposal_lifetime then .error (.Custom .ProposalExpired)
  else if ¬ inp.wallet_auth.data.is_initialized then .error .UninitializedAccount
  else if bitGet inp.vote_count.data.vote_record inp.wallet_auth.data.id then
    .error (.Custom .AlreadyVoted)
  else
    .ok { inp.vote_count.data with
          vote_record :=
            setRecordBit inp.vote_count.data.vote_record inp.wallet_auth.data.id true,
          -- u8 wrapping increment of the tally
          votes := (inp.vote_count.data.votes + 1) % 256 }

/-! ## close_proposal (handler.rs 551-750) -/

/-- The variable tail of the CloseProposal account list, typed by the arm
that consumes it (Transfer: source, destination, wallet authority, token
program; AddOwner: payer, new wallet auth, system program; ChangeLifetime
and the expired path read no extra accounts). -/
inductive CloseExtras
  | noneSupplied
  | transfer (source : TokenAccount) (destination_key : Pubkey)
      (wallet_authority_key : Pubkey) (token_program_key : Pubkey)
  | addOwner (payer_key : Pubkey) (payer_is_signer : Bool)
      (wallet_auth_key : Pubkey) (system_program_key : Pubkey)
deriving DecidableEq, Repr

structure CloseInput where
  program_id : Pubkey
  proposer : UserAccount
  wallet_config : ConfigAccount
  proposal : ProposalAccount
  vote_count : VoteAccount
  extras : CloseExtras
  now : Int
deriving DecidableEq, Repr

structure CloseResult where
  proposal : Proposal
  vote_count : VoteCount
  wallet_config : WalletConfig
  proposer_lamports : Nat
  transfer_effect : Option (Pubkey × Pubkey × Nat)
  new_auth : Option WalletAuth
deriving DecidableEq, Repr

def close_proposal (inp : CloseInput) : Except ProgramError CloseResult :=
  if inp.wallet_config.owner_prog ≠ inp.program_id then .error .IllegalOwner
  else if inp.proposal.owner_prog ≠ inp.program_id then .error .IllegalOwner
  else if ¬ inp.proposal.data.is_initialized then .error .UninitializedAccount
  else if inp.proposer.key ≠ inp.proposal.data.proposer then
    .error (.Custom .IncorrectProposer)
  else if inp.vote_count.key ≠ pdaVotes inp.wallet_config.key inp.proposal.key then
    .error (.Custom .InvalidVoteCount)
  else if ¬ inp.vote_count.data.is_initialized then .error .UninitializedAccount
  else
    -- handler.rs 582-597: both records are deactivated and refunded to the
    -- proposer before the outcome is evaluated; failures below roll this back
    let proposal_closed := { inp.proposal.data with is_initialized := false }
    let vote_closed := { inp.vote_count.data with is_initialized := false }
    let refunded := inp.proposer.lamports + inp.proposal.lamports + inp.vote_count.lamports
    if ¬ inp.wallet_config.data.is_initialized then .error .UninitializedAccount
    else if inp.now > inp.vote_count.data.proposed_time +
        inp.wallet_config.data.proposal_lifetime then
      .ok { proposal := proposal_closed, vote_count := vote_closed,
            wallet_config := inp.wallet_config.data, proposer_lamports := refunded,
            transfer_effect := none, new_auth := none }
    -- handler.rs 609: owners * m / n in u8 arithmetic: the product wraps at
    -- 256 and u8 division panics on a zero divisor
    else if inp.wallet_config.data.n = 0 then .error .RuntimePanic
    else if inp.vote_count.data.votes <
        (inp.wallet_config.data.owners * inp.wallet_config.data.m) % 256 /
          inp.wallet_config.data.n then
      .error (.Custom .InsufficientVotes)
    else
      match inp.proposal.data.proposal with
      | .Transfer token_mint receive_account amount =>
          match inp.extras with
          | .transfer source destination_key wallet_authority_key token_program_key =>
              if source.data.mint ≠ token_mint ∨ source.data.owner ≠ wallet_authority_key then
                .error (.Custom .IncorrectSendAccount)
              else if source.data.amount < amount then .error .InsufficientFunds
              else if destination_key ≠ receive_account then
                .error (.Custom .IncorrectReceiveAccount)
              else if wallet_authority_key ≠ pdaAuthority inp.wallet_config.key then
                .error (.Custom .InvalidWalletAuthority)
              else if token_program_key ≠ TOKEN_PROGRAM_ID then .error .IncorrectProgramId
              else
                .ok { proposal := proposal_closed, vote_count := vote_closed,
                      wallet_config := inp.wallet_config.data,
                      proposer_lamports := refunded,
                      transfer_effect := some (source.key, destination_key, amount),
                      new_auth := none }
          | _ => .error .NotEnoughAccountKeys
      | .AddOwner user =>
          match inp.extras with
          | .addOwner payer_key payer_is_signer wallet_auth_key system_program_key =>
              if ¬ payer_is_signer then .error .MissingRequiredSignature
              else if wallet_auth_key ≠ pdaOwner inp.wallet_config.key user then
                .error (.Custom .InvalidWalletAuth)
              else if system_program_key ≠ SYSTEM_PROGRAM_ID then .error .IncorrectProgramId
              else if inp.wallet_config.data.owners = 255 then
                .error (.Custom .MaximumOwnersReached)
              else
                let bm := inp.wallet_config.data.owner_identities
                let byte_pos := firstNonFullByte bm
                let bit_pos := leadingOnes (bm.getD byte_pos 0)
                match replaceRangeBit (bm.getD byte_pos 0) bit_pos true with
                | .error e => .error e
                | .ok newByte =>
                    -- (byte_pos * 8 + bit_pos).try_into to u8 panics above 255
                    let newAuth : WalletAuth :=
                      { discriminator := .WalletAuth, owner := user,
                        wallet := inp.wallet_config.key, added_time := inp.now,
                        id := byte_pos * 8 + bit_pos, is_initialized := true }
                    if byte_pos * 8 + bit_pos ≤ 255 then
                      .ok { proposal := proposal_closed, vote_count := vote_closed,
                            wallet_config := { inp.wallet_config.data with
                              owner_identities := bm.set byte_pos newByte,
                              owners := (inp.wallet_config.data.owners + 1) % 256 },
                            proposer_lamports := refunded, transfer_effect := none,
                            new_auth := some newAuth }
                    else .error .RuntimePanic
          | _ => .error .NotEnoughAccountKeys
      | .ChangeProposalLifetime duration =>
          .ok { proposal := proposal_closed, vote_count := vote_closed,
                wallet_config := { inp.wallet_config.data with
                  proposal_lifetime := duration },
                proposer_lamports := refunded, transfer_effect := none,
                new_auth := none }

/-! ## WalletInstruction::unpack (instruction.rs 80-157)

Raw instruction bytes are a List Nat (each element a byte value); 32-byte
identities are kept as raw 32-byte chunks at this layer. -/

/-- borsh i64::deserialize: 8 little-endian bytes, two's complement. -/
def i64FromLEBytes (l : List Nat) : Int :=
  let u : Nat := l.foldr (fun b acc => b + 256 * acc) 0
  if u < 2 ^ 63 then (u : Int) else (u : Int) - 2 ^ 64

/-- u64::from_be_bytes on 8 bytes. -/
def u64FromBEBytes (l : List Nat) : Nat :=
  l.foldl (fun acc b => acc * 256 + b) 0

/-- i64::from_be_bytes on 8 bytes, two's complement. -/
def i64FromBEBytes (l : List Nat) : Int :=
  let u : Nat := l.foldl (fun acc b => acc * 256 + b) 0
  if u < 2 ^ 63 then (u : Int) else (u : Int) - 2 ^ 64

inductive DecodedProposal
  | Transfer (token_mint : List Nat) (receive_account : List Nat) (amount : Nat)
  | AddOwner (user : List Nat)
  | ChangeLifetime (duration : Int)
deriving DecidableEq, Repr

inductive DecodedInstruction
  | CreateWallet (m : Nat) (n : Nat) (owners : List (List Nat)) (proposal_lifetime : Int)
  | CreateTokenAccount
  | GiveupOwnership
  | CreateProposal (proposal : DecodedProposal)
  | Vote
  | CloseProposal
deriving DecidableEq, Repr

/-- instruction.rs 102-109: the owner-list loop.  count is advanced by 32
(a byte offset) but compared against owner_count (a number of owners); each
iteration takes the 32-byte slice rest[count..count+32], which panics when
it runs past the end of the data.  The loop is written with an explicit fuel
argument (each iteration advances count by at least 1, so ownerCount units
of fuel always suffice; the fuel-exhausted branch is unreachable from
parseOwners). -/
def parseOwnersLoop (rest : List Nat) (ownerCount : Nat) :
    Nat → Nat → Except ProgramError (List (List Nat))
  | 0, count => if count < ownerCount then .error .RuntimePanic else .ok []
  | fuel + 1, count =>
      if count < ownerCount then
        if count + 32 ≤ rest.length then
          match parseOwnersLoop rest ownerCount fuel (count + 32) with
          | .error e => .error e
          | .ok tail => .ok (((rest.drop count).take 32) :: tail)
        else .error .RuntimePanic
      else .ok []

def parseOwners (rest : List Nat) (ownerCount : Nat) (count : Nat) :
    Except ProgramError (List (List Nat)) :=
  parseOwnersLoop rest ownerCount (ownerCount + 1 - count) count

/-- One unfolding step of parseOwnersLoop at positive fuel. -/
theorem parseOwnersLoop_succ (rest : List Nat) (ownerCount fuel count : Nat) :
    parseOwnersLoop rest ownerCount (fuel + 1) count =
      if count < ownerCount then
        if count + 32 ≤ rest.length then
          match parseOwnersLoop rest ownerCount fuel (count + 32) with
          | .error e => .error e
          | .ok tail => .ok (((rest.drop count).take 32) :: tail)
        else .error .RuntimePanic
      else .ok [] := rfl

/-- The fuel-exhausted branch of parseOwnersLoop is never taken when the
fuel covers the remaining distance to ownerCount. -/
theorem parseOwnersLoop_fuel_irrelevant (rest : List Nat) (ownerCount : Nat) :
    ∀ fuel fuel' count, ownerCount ≤ count + fuel → ownerCount ≤ count + fuel' →
      parseOwnersLoop rest ownerCount fuel count =
        parseOwnersLoop rest ownerCount fuel' count := by
  intro fuel
  induction fuel with
  | zero =>
      intro fuel' count h h'
      cases fuel' with
      | zero => rfl
      | succ f =>
          rw [parseOwnersLoop_succ, if_neg (by omega)]
          show (if count < ownerCount then Except.error ProgramError.RuntimePanic
            else .ok []) = _
          rw [if_neg (by omega)]
  | succ f ih =>
      intro fuel' count h h'
      cases fuel' with
      | zero =>
          rw [parseOwnersLoop_succ, if_neg (by omega)]
          show _ = (if count < ownerCount then Except.error ProgramError.RuntimePanic
            else .ok [])
          rw [if_neg (by omega)]
      | succ f' =>
          rw [parseOwnersLoop_succ, parseOwnersLoop_succ]
          by_cases hc : count < ownerCount
          · rw [if_pos hc, if_pos hc]
            by_cases hl : count + 32 ≤ rest.length
            · rw [if_pos hl, if_pos hl, ih f' (count + 32) (by omega) (by omega)]
            · rw [if_neg hl, if_neg hl]
          · rw [if_neg hc, if_neg hc]

def unpack (data : List Nat) : Except ProgramError DecodedInstruction :=
  match data with
  | [] => .error .InvalidInstructionData
  | variant :: rest =>
      match variant with
      | 0 =>
          match rest with
          | [] => .error .InvalidInstructionData
          | m :: rest1 =>
              match rest1 with
              | [] => .error .InvalidInstructionData
              | n :: rest2 =>
                  -- &rest[..8] panics when fewer than 8 bytes remain
                  if rest2.length < 8 then .error .RuntimePanic
                  else
                    let lifetime := i64FromLEBytes (rest2.take 8)
                    let rest3 := rest2.drop 8
                    match rest3 with
                    | [] => .ok (.CreateWallet m n [] lifetime)
                    | ownerCount :: rest4 =>
                        match parseOwners rest4 ownerCount 0 with
                        | .error e => .error e
                        | .ok owners => .ok (.CreateWallet m n owners lifetime)
      | 1 => .ok .CreateTokenAccount
      | 2 => .ok .GiveupOwnership
      | 3 =>
          match rest with
          | [] => .error .InvalidInstructionData
          | ptype :: rest1 =>
              match ptype with
              | 0 =>
                  -- slices [0..32], [32..64] and the [64..] try_into to
                  -- [u8; 8] require exactly 72 payload bytes; anything else
                  -- panics
                  if rest1.length = 72 then
                    .ok (.CreateProposal (.Transfer (rest1.take 32)
                      ((rest1.drop 32).take 32) (u64FromBEBytes (rest1.drop 64))))
                  else .error .RuntimePanic
              | 1 =>
                  -- Pubkey::deserialize reads 32 bytes from the stream and
                  -- propagates a borsh error when fewer remain
                  if 32 ≤ rest1.length then
                    .ok (.CreateProposal (.AddOwner (rest1.take 32)))
                  else .error .BorshIoError
              | 2 =>
                  -- rest.try_into to [u8; 8] requires exactly 8 bytes
                  if rest1.length = 8 then
                    .ok (.CreateProposal (.ChangeLifetime (i64FromBEBytes rest1)))
                  else .error .RuntimePanic
              | _ => .error .InvalidInstructionData
      | 4 => .ok .Vote
      | 5 => .ok .CloseProposal
      | _ => .error .InvalidInstructionData

/-! ## Concrete invocations used by the claim analysis -/

/-- A 16-of-16 wallet with 16 owners: the u8 quorum product 16 * 16 wraps
to 0, so a single vote passes the check although floor(16 * 16 / 16) = 16. -/
def c1Config : WalletConfig :=
  { discriminator := .WalletConfig, m := 16, n := 16, owners := 16,
    owner_identities := createBitmap 16, proposal_lifetime := 3600,
    is_initialized := true }

def c1Input : CloseInput :=
  { program_id := 1,
    proposer := { key := 5, is_signer := false, lamports := 10 },
    wallet_config := { key := 100, is_signer := false, owner_prog := 1,
                       lamports := 50, data := c1Config },
    proposal := { key := 200, owner_prog := 1, lamports := 30,
                  data := { discriminator := .Proposal, wallet := 100, proposer := 5,
                            proposal := .ChangeProposalLifetime 1200,
                            is_initialized := true } },
    vote_count := { key := pdaVotes 100 200, lamports := 20,
                    data := { discriminator := .VoteCount, proposed_time := 0,
                              votes := 1, vote_record := singleBitRecord 0,
                              is_initialized := true } },
    extras := .noneSupplied,
    now := 0 }

/-- A sole-owner wallet configuration. -/
def c6Config : WalletConfig :=
  { discriminator := .WalletConfig, m := 1, n := 1, owners := 1,
    owner_identities := createBitmap 1, proposal_lifetime := 600,
    is_initialized := true }

def c6Auth : WalletAuth :=
  { discriminator := .WalletAuth, owner := 5, wallet := 100,
    added_time := 0, id := 0, is_initialized := true }

/-- The sole owner calls GiveupOwnership supplying only the three mandatory
accounts (no authority, no token program, no fund pairs). -/
def c6Input : GiveUpInput :=
  { program_id := 1,
    user := { key := 5, is_signer := true, lamports := 10 },
    wallet_config := { key := 100, is_signer := false, owner_prog := 1,
                       lamports := 50, data := c6Config },
    wallet_auth := { key := pdaOwner 100 5, owner_prog := 1, lamports := 20,
                     data := c6Auth },
    extras := none }

/-- CreateWallet instruction bytes: opcode 0, m = 1, n = 2, lifetime 600
(8 little-endian bytes), then the optional owner list with ownerCount = 2
followed by two 32-byte identities (64 bytes of value 7). -/
def c9Data : List Nat :=
  0 :: 1 :: 2 :: 88 :: 2 :: 0 :: 0 :: 0 :: 0 :: 0 :: 0 :: 2 :: List.replicate 64 7

/-- A valid three-owner wallet creation (m = 2, n = 3, caller 5 plus owners
6 and 7, lifetime 3600). -/
def c3Input : CreateWalletInput :=
  { program_id := 1, m := 2, n := 3, owners := [6, 7], proposal_lifetime := 3600,
    user := { key := 5, is_signer := true, lamports := 100 },
    wallet_config_key := 100, wallet_config_is_signer := true,
    wallet_auth_key := pdaOwner 100 5,
    system_program_key := SYSTEM_PROGRAM_ID,
    other_auth_keys := [pdaOwner 100 6, pdaOwner 100 7],
    now := 50 }

/-! ## Helper characterizations of create_wallet -/

theorem buildOtherAuths_ok_of_keys (wallet : Pubkey) (now : Int) :
    ∀ (owners : List Pubkey) (id0 : Nat),
      ∃ l, buildOtherAuths wallet now owners (owners.map (pdaOwner wallet)) id0 = .ok l ∧
        l.map (fun a => a.owner) = owners ∧
        l.map (fun a => a.id) = List.range' id0 owners.length ∧
        ∀ a ∈ l, a.is_initialized = true ∧ a.wallet = wallet ∧ a.added_time = now := by
  intro owners
  induction owners with
  | nil =>
      intro id0
      exact ⟨[], rfl, rfl, rfl, by simp⟩
  | cons o os ih =>
      intro id0
      obtain ⟨l, hl, h1, h2, h3⟩ := ih (id0 + 1)
      refine ⟨{ discriminator := .WalletAuth, owner := o, wallet := wallet,
                added_time := now, id := id0, is_initialized := true } :: l, ?_, ?_, ?_, ?_⟩
      · simp only [List.map_cons, buildOtherAuths]
        rw [if_neg (by simp), hl]
      · simp [h1]
      · simp only [List.map_cons, List.length_cons, h2, List.range'_succ]
      · intro a ha
        rcases List.mem_cons.mp ha with rfl | ha'
        · exact ⟨rfl, rfl, rfl⟩
        · exact h3 a ha'

theorem create_wallet_ok_of_valid (inp : CreateWalletInput)
    (hm : 1 ≤ inp.m) (hmn : inp.m ≤ inp.n) (hlife : 600 ≤ inp.proposal_lifetime)
    (hus : inp.user.is_signer = true) (hcs : inp.wallet_config_is_signer = true)
    (hak : inp.wallet_auth_key = pdaOwner inp.wallet_config_key inp.user.key)
    (hsys : inp.system_program_key = SYSTEM_PROGRAM_ID)
    (hkeys : inp.other_auth_keys = inp.owners.map (pdaOwner inp.wallet_config_key))
    (hcnt : inp.owners.length ≤ 254) :
    ∃ r, create_wallet inp = .ok r ∧
      r.config = { discriminator := .WalletConfig, m := inp.m, n := inp.n,
                   owners := 1 + inp.owners.length,
                   owner_identities := createBitmap (1 + inp.owners.length),
                   proposal_lifetime := inp.proposal_lifetime,
                   is_initialized := true } ∧
      r.auths.map (fun a => a.owner) = inp.user.key :: inp.owners ∧
      r.auths.map (fun a => a.id) = List.range' 0 (1 + inp.owners.length) ∧
      ∀ a ∈ r.auths, a.is_initialized = true ∧ a.wallet = inp.wallet_config_key ∧
        a.added_time = inp.now := by
  obtain ⟨l, hl, h1, h2, h3⟩ := buildOtherAuths_ok_of_keys inp.wallet_config_key inp.now inp.owners 1
  refine ⟨{ config := { discriminator := .WalletConfig, m := inp.m, n := inp.n,
                        owners := 1 + inp.owners.length,
                        owner_identities := createBitmap (1 + inp.owners.length),
                        proposal_lifetime := inp.proposal_lifetime,
                        is_initialized := true },
            auths := { discriminator := .WalletAuth, owner := inp.user.key,
                       wallet := inp.wallet_config_key, added_time := inp.now,
                       id := 0, is_initialized := true } :: l }, ?_, rfl, ?_, ?_, ?_⟩
  · unfold create_wallet
    rw [if_neg (by omega), if_neg (by omega), if_neg (by simp [hus, hcs]),
      if_neg (by simp [hak]), if_neg (by simp [hsys]),
      if_neg (by simp [hkeys]), hkeys, hl]
    dsimp only
    rw [if_pos (by omega)]
  · simp [h1]
  · simp only [List.map_cons, h2]
    rw [show (1 : Nat) + inp.owners.length = inp.owners.length + 1 by omega,
      List.range'_succ]
  · intro a ha
    rcases List.mem_cons.mp ha with rfl | ha'
    · exact ⟨rfl, rfl, rfl⟩
    · exact h3 a ha'

/-! ## Claim theorems -/

/-- C1: the claim that a closeProposal on an initialized, non-expired
proposal executes the payload iff voteTally ≥ floor(ownerCount·m/n), failing
InsufficientVotes below quorum, is FALSE on the code: the quorum product
owners * m is computed in u8 and wraps at 256.  For the reachable 16-of-16
wallet with 16 owners, floor(16·16/16) = 16, yet a close with voteTally = 1
executes the ChangeLifetime payload (the wrapped quorum is (256 mod 256)/16
= 0) instead of failing InsufficientVotes. -/
theorem c1_close_proposal_quorum_overflow :
    (close_proposal c1Input).map (fun r => r.wallet_config.proposal_lifetime) =
      .ok 1200 ∧
    c1Input.vote_count.data.votes = 1 ∧
    c1Config.owners * c1Config.m / c1Config.n = 16 :=
  ⟨rfl, rfl, rfl⟩

/-- C3 counterexample: creating a wallet with 3 owners does NOT leave the
first bitmap byte 0b00000111 (7): the loop builds the binary string most
significant digit first, so the persisted byte is 0b11100000 (224). -/
theorem c3_first_byte_counterexample :
    (create_wallet c3Input).map (fun r => r.config.owner_identities.getD 0 0) =
      .ok 224 ∧ (224 : Nat) ≠ 7 :=
  ⟨rfl, by decide⟩

/-- C3 amended: after a successful createWallet with k additional owners the
persisted WalletConfig has ownerCount = 1 + k and exactly the first 1 + k
bit positions of the bitmap set in the program's character order (character
j of byte i — most significant digit first — so 3 owners give first byte
0b11100000), with the caller at slot 0 and the other owners at slots 1..k
in input order. -/
theorem c3_create_wallet_bitmap_layout (inp : CreateWalletInput)
    (hm : 1 ≤ inp.m) (hmn : inp.m ≤ inp.n) (hlife : 600 ≤ inp.proposal_lifetime)
    (hus : inp.user.is_signer = true) (hcs : inp.wallet_config_is_signer = true)
    (hak : inp.wallet_auth_key = pdaOwner inp.wallet_config_key inp.user.key)
    (hsys : inp.system_program_key = SYSTEM_PROGRAM_ID)
    (hkeys : inp.other_auth_keys = inp.owners.map (pdaOwner inp.wallet_config_key))
    (hcnt : inp.owners.length ≤ 254) :
    ∃ r, create_wallet inp = .ok r ∧
      r.config.owners = 1 + inp.owners.length ∧
      (∀ g, g < 256 →
        bitGet r.config.owner_identities g = decide (g < 1 + inp.owners.length)) ∧
      r.auths.map (fun a => a.owner) = inp.user.key :: inp.owners ∧
      r.auths.map (fun a => a.id) = List.range' 0 (1 + inp.owners.length) := by
  obtain ⟨r, hok, hcfg, ho, hi, _⟩ :=
    create_wallet_ok_of_valid inp hm hmn hlife hus hcs hak hsys hkeys hcnt
  refine ⟨r, hok, by rw [hcfg], ?_, ho, hi⟩
  intro g hg
  rw [hcfg]
  exact bitGet_createBitmap _ g (by omega) (by omega) hg

theorem c3_create_wallet_bitmap_layout_witness :
    ∃ r, create_wallet c3Input = .ok r ∧
      r.config.owners = 1 + c3Input.owners.length ∧
      (∀ g, g < 256 →
        bitGet r.config.owner_identities g = decide (g < 1 + c3Input.owners.length)) ∧
      r.auths.map (fun a => a.owner) = c3Input.user.key :: c3Input.owners ∧
      r.auths.map (fun a => a.id) = List.range' 0 (1 + c3Input.owners.length) :=
  c3_create_wallet_bitmap_layout c3Input (by decide) (by decide) (by decide)
    (by decide) (by decide) (by decide) (by decide) (by decide) (by decide)

/-- C6: the claim that a sole owner supplying no authority account and no
fund pairs succeeds is FALSE on the code: the early-return test
accounts.iter().len() == 0 counts ALL instruction accounts (a fresh
iterator), never the remaining ones, so with only the three mandatory
accounts the handler falls through to next_account_info and the whole call
fails NotEnoughAccountKeys — nothing is deactivated or refunded. -/
theorem c6_giveup_sole_owner_no_extras_fails :
    give_up_ownership c6Input = .error .NotEnoughAccountKeys ∧
    c6Input.wallet_config.data.owners = 1 ∧ c6Input.extras = none :=
  ⟨rfl, rfl, rfl⟩

/-- C7: createWallet fails InvalidWalletParameters whenever m = 0 or m > n,
fails TooShortLifetime whenever the lifetime is below 600, and succeeds for
every 1 ≤ m ≤ n ≤ 255 with a valid lifetime and well-formed signer and
account inputs. -/
theorem c7_create_wallet_validation (inp : CreateWalletInput) :
    ((inp.m = 0 ∨ inp.n < inp.m) →
      create_wallet inp = .error (.Custom .InvalidWalletParameters)) ∧
    (1 ≤ inp.m → inp.m ≤ inp.n → inp.proposal_lifetime < 600 →
      create_wallet inp = .error (.Custom .TooShortLifetime)) ∧
    (1 ≤ inp.m → inp.m ≤ inp.n → inp.n ≤ 255 → 600 ≤ inp.proposal_lifetime →
      inp.user.is_signer = true → inp.wallet_config_is_signer = true →
      inp.wallet_auth_key = pdaOwner inp.wallet_config_key inp.user.key →
      inp.system_program_key = SYSTEM_PROGRAM_ID →
      inp.other_auth_keys = inp.owners.map (pdaOwner inp.wallet_config_key) →
      inp.owners.length ≤ 254 →
      ∃ r, create_wallet inp = .ok r) := by
  refine ⟨?_, ?_, ?_⟩
  · intro h
    unfold create_wallet
    rw [if_pos h]
  · intro h1 h2 h3
    unfold create_wallet
    rw [if_neg (by omega), if_pos h3]
  · intro h1 h2 _ h4 h5 h6 h7 h8 h9 h10
    obtain ⟨r, hok, _⟩ := create_wallet_ok_of_valid inp h1 h2 h4 h5 h6 h7 h8 h9 h10
    exact ⟨r, hok⟩

theorem c7_create_wallet_validation_witness :
    create_wallet { c3Input with m := 0 } = .error (.Custom .InvalidWalletParameters) ∧
    create_wallet { c3Input with proposal_lifetime := 5 } =
      .error (.Custom .TooShortLifetime) ∧
    ∃ r, create_wallet c3Input = .ok r :=
  ⟨(c7_create_wallet_validation _).1 (by decide),
   (c7_create_wallet_validation _).2.1 (by decide) (by decide) (by decide),
   (c7_create_wallet_validation _).2.2 (by decide) (by decide) (by decide)
     (by decide) (by decide) (by decide) (by decide) (by decide) (by decide)
     (by decide)⟩

/-- C9: the claim that the decoder returns exactly ownerCount identities is
FALSE on the code: the loop compares its byte offset (stepping by 32)
against ownerCount, so for the CreateWallet bytes carrying ownerCount = 2
and two 32-byte identities it returns an owners vector of length 1. -/
theorem c9_unpack_owner_count_mismatch :
    unpack c9Data = .ok (.CreateWallet 1 2 [List.replicate 32 7] 600) ∧
    (unpack c9Data).map (fun i =>
      match i with
      | .CreateWallet _ _ owners _ => owners.length
      | _ => 0) = .ok 1 :=
  ⟨rfl, rfl⟩

/-- C4: for every vote() call by an owner on an initialized proposal (all
account checks passing, well-formed u8 slot id and 32-byte vote record): it
fails ProposalExpired when now exceeds proposedTime + lifetime; otherwise it
fails AlreadyVoted when the caller's slot bit is already set; otherwise it
sets exactly that bit and increments voteTally by exactly one (the tally is
a u8; it counts distinct slots, which never exceed 255, hence the ≤ 254
bound on the incremented tally). -/
theorem c4_vote_spec (inp : VoteInput)
    (h1 : inp.user.is_signer = true)
    (h2 : inp.wallet_config.owner_prog = inp.program_id)
    (h3 : inp.wallet_auth.key = pdaOwner inp.wallet_config.key inp.user.key)
    (h4 : inp.proposal.owner_prog = inp.program_id)
    (h5 : inp.vote_count.key = pdaVotes inp.wallet_config.key inp.proposal.key)
    (h6 : inp.wallet_config.data.is_initialized = true)
    (h7 : inp.vote_count.data.is_initialized = true)
    (h8 : inp.wallet_auth.data.is_initialized = true)
    (hid : inp.wallet_auth.data.id < 256)
    (hrec : inp.vote_count.data.vote_record.length = 32) :
    (inp.now > inp.vote_count.data.proposed_time +
        inp.wallet_config.data.proposal_lifetime →
      vote inp = .error (.Custom .ProposalExpired)) ∧
    (inp.now ≤ inp.vote_count.data.proposed_time +
        inp.wallet_config.data.proposal_lifetime →
      bitGet inp.vote_count.data.vote_record inp.wallet_auth.data.id = true →
      vote inp = .error (.Custom .AlreadyVoted)) ∧
    (inp.now ≤ inp.vote_count.data.proposed_time +
        inp.wallet_config.data.proposal_lifetime →
      bitGet inp.vote_count.data.vote_record inp.wallet_auth.data.id = false →
      inp.vote_count.data.votes ≤ 254 →
      ∃ vc, vote inp = .ok vc ∧
        vc.votes = inp.vote_count.data.votes + 1 ∧
        bitGet vc.vote_record inp.wallet_auth.data.id = true ∧
        (∀ j, j ≠ inp.wallet_auth.data.id →
          bitGet vc.vote_record j = bitGet inp.vote_count.data.vote_record j) ∧
        vc.proposed_time = inp.vote_count.data.proposed_time) := by
  unfold vote
  rw [if_neg (by simp [h1]), if_neg (by simp [h2]), if_neg (by simp [h3]),
    if_neg (by simp [h4]), if_neg (by simp [h5]), if_neg (by simp [h6]),
    if_neg (by simp [h7])]
  refine ⟨?_, ?_, ?_⟩
  · intro hx
    rw [if_pos hx]
  · intro hx hbit
    rw [if_neg (by omega), if_neg (by simp [h8]), if_pos (by simp [hbit])]
  · intro hx hbit hvotes
    rw [if_neg (by omega), if_neg (by simp [h8]), if_neg (by simp [hbit])]
    refine ⟨_, rfl, by simp; omega, ?_, ?_, rfl⟩
    · exact bitGet_setRecordBit_self _ _ _ (by omega)
    · intro j hj
      exact bitGet_setRecordBit_other _ _ _ _ hj

def c4Proposal : Proposal :=
  { discriminator := .Proposal, wallet := 100, proposer := 5,
    proposal := .ChangeProposalLifetime 1200, is_initialized := true }

def c4Votes : VoteCount :=
  { discriminator := .VoteCount, proposed_time := 0, votes := 1,
    vote_record := singleBitRecord 1, is_initialized := true }

/-- A valid vote by the slot-0 owner (key 5) on a live proposal whose only
previous voter is slot 1. -/
def c4Input : VoteInput :=
  { program_id := 1,
    user := { key := 5, is_signer := true, lamports := 10 },
    wallet_config := { key := 100, is_signer := false, owner_prog := 1,
                       lamports := 50, data := c1Config },
    wallet_auth := { key := pdaOwner 100 5, owner_prog := 1, lamports := 20,
                     data := c6Auth },
    proposal := { key := 200, owner_prog := 1, lamports := 30, data := c4Proposal },
    vote_count := { key := pdaVotes 100 200, lamports := 20, data := c4Votes },
    now := 10 }

theorem c4_vote_spec_witness :
    c4Input.now ≤ c4Votes.proposed_time + c1Config.proposal_lifetime ∧
    ∃ vc, vote c4Input = .ok vc ∧ vc.votes = c4Votes.votes + 1 := by
  refine ⟨by decide, ?_⟩
  obtain ⟨vc, hok, hv, -, -, -⟩ :=
    (c4_vote_spec c4Input (by decide) (by decide) (by decide) (by decide)
      (by decide) (by decide) (by decide) (by decide) (by decide) (by decide)).2.2
      (by decide) (by decide) (by decide)
  exact ⟨vc, hok, hv⟩

/-- C10: closeProposal never requires a signature: the only proposer check
is public-key equality of the (non-signing) first account against the
recorded proposer.  For an expired proposal, or a Transfer or ChangeLifetime
proposal meeting quorum with valid accounts, the close completes with the
proposer's signer flag false (and with every other supplied account
non-signing: the Transfer and expired paths read no signer flag at all),
both rent refunds are credited to the listed proposer account, and the
result is independent of the proposer's signer flag. -/
theorem c10_close_proposal_no_signature (inp : CloseInput)
    (hop1 : inp.wallet_config.owner_prog = inp.program_id)
    (hop2 : inp.proposal.owner_prog = inp.program_id)
    (hpinit : inp.proposal.data.is_initialized = true)
    (hprop : inp.proposer.key = inp.proposal.data.proposer)
    (hvk : inp.vote_count.key = pdaVotes inp.wallet_config.key inp.proposal.key)
    (hvinit : inp.vote_count.data.is_initialized = true)
    (hcinit : inp.wallet_config.data.is_initialized = true)
    (hnosig : inp.proposer.is_signer = false)
    (hcase :
      (inp.now > inp.vote_count.data.proposed_time +
        inp.wallet_config.data.proposal_lifetime) ∨
      (inp.now ≤ inp.vote_count.data.proposed_time +
          inp.wallet_config.data.proposal_lifetime ∧
       inp.wallet_config.data.n ≠ 0 ∧
       ¬(inp.vote_count.data.votes <
         (inp.wallet_config.data.owners * inp.wallet_config.data.m) % 256 /
           inp.wallet_config.data.n) ∧
       ((∃ d, inp.proposal.data.proposal = .ChangeProposalLifetime d) ∨
        (∃ mint recv amt src dstk authk tokk,
          inp.proposal.data.proposal = .Transfer mint recv amt ∧
          inp.extras = .transfer src dstk authk tokk ∧
          src.data.mint = mint ∧ src.data.owner = authk ∧
          amt ≤ src.data.amount ∧ dstk = recv ∧
          authk = pdaAuthority inp.wallet_config.key ∧
          tokk = TOKEN_PROGRAM_ID)))) :
    (∃ r, close_proposal inp = .ok r ∧
      r.proposer_lamports =
        inp.proposer.lamports + inp.proposal.lamports + inp.vote_count.lamports ∧
      r.proposal.is_initialized = false ∧ r.vote_count.is_initialized = false) ∧
    (∀ b, close_proposal { inp with proposer := { key := inp.proposer.key,
                                                  is_signer := b,
                                                  lamports := inp.proposer.lamports } } =
      close_proposal inp) := by
  constructor
  · unfold close_proposal
    rw [if_neg (by simp [hop1]), if_neg (by simp [hop2]), if_neg (by simp [hpinit]),
      if_neg (by simp [hprop]), if_neg (by simp [hvk]), if_neg (by simp [hvinit])]
    rcases hcase with hexp | ⟨hnexp, hn, hq, harm⟩
    · rw [if_neg (by simp [hcinit]), if_pos hexp]
      exact ⟨_, rfl, rfl, rfl, rfl⟩
    · rw [if_neg (by simp [hcinit]), if_neg (by omega), if_neg (by simp [hn]),
        if_neg (by simp [hq])]
      rcases harm with ⟨d, hP⟩ | ⟨mint, recv, amt, src, dstk, authk, tokk,
        hP, hE, hm, howner, hamt, hdst, hauth, htok⟩
      · rw [hP]
        exact ⟨_, rfl, rfl, rfl, rfl⟩
      · rw [hP, hE]
        dsimp only
        rw [if_neg (by simp [hm, howner]), if_neg (by omega),
          if_neg (by simp [hdst]), if_neg (by simp [hauth]),
          if_neg (by simp [htok])]
        exact ⟨_, rfl, rfl, rfl, rfl⟩
  · intro b
    rfl

theorem c10_close_proposal_no_signature_witness :
    ({ c1Input with now := 999999 } : CloseInput).proposer.is_signer = false ∧
    ∃ r, close_proposal { c1Input with now := 999999 } = .ok r ∧
      r.proposer_lamports = 60 := by
  refine ⟨by decide, ?_⟩
  obtain ⟨⟨r, hok, hl, -, -⟩, -⟩ :=
    c10_close_proposal_no_signature { c1Input with now := 999999 } (by decide)
      (by decide) (by decide) (by decide) (by decide) (by decide) (by decide)
      (by decide) (Or.inl (by decide))
  exact ⟨r, hok, hl.trans (by decide)⟩

/-- C5: executing an AddOwner proposal (valid accounts, non-expired, quorum
met) fails MaximumOwnersReached iff ownerCount = 255 at execution time;
otherwise it sets the lowest unset bitmap bit in the program's scan order
(byte index ascending, then bit index ascending within the byte's binary
string), increments ownerCount, and creates a WalletAuth whose slot id is
that bit's global index byte_index * 8 + bit_index. -/
theorem c5_close_proposal_add_owner (inp : CloseInput) (newOwner payerKey : Pubkey)
    (hop1 : inp.wallet_config.owner_prog = inp.program_id)
    (hop2 : inp.proposal.owner_prog = inp.program_id)
    (hpinit : inp.proposal.data.is_initialized = true)
    (hprop : inp.proposer.key = inp.proposal.data.proposer)
    (hvk : inp.vote_count.key = pdaVotes inp.wallet_config.key inp.proposal.key)
    (hvinit : inp.vote_count.data.is_initialized = true)
    (hcinit : inp.wallet_config.data.is_initialized = true)
    (hP : inp.proposal.data.proposal = .AddOwner newOwner)
    (hE : inp.extras = .addOwner payerKey true
      (pdaOwner inp.wallet_config.key newOwner) SYSTEM_PROGRAM_ID)
    (hnexp : inp.now ≤ inp.vote_count.data.proposed_time +
      inp.wallet_config.data.proposal_lifetime)
    (hn : inp.wallet_config.data.n ≠ 0)
    (hq : ¬(inp.vote_count.data.votes <
      (inp.wallet_config.data.owners * inp.wallet_config.data.m) % 256 /
        inp.wallet_config.data.n))
    (hlen : inp.wallet_config.data.owner_identities.length = 32)
    (hbytes : ∀ b ∈ inp.wallet_config.data.owner_identities, b < 256)
    (hpc : popcount inp.wallet_config.data.owner_identities =
      inp.wallet_config.data.owners)
    (howners : inp.wallet_config.data.owners ≤ 255) :
    (close_proposal inp = .error (.Custom .MaximumOwnersReached) ↔
      inp.wallet_config.data.owners = 255) ∧
    (inp.wallet_config.data.owners ≠ 255 →
      ∃ r g, close_proposal inp = .ok r ∧
        g = firstNonFullByte inp.wallet_config.data.owner_identities * 8 +
          leadingOnes (inp.wallet_config.data.owner_identities.getD
            (firstNonFullByte inp.wallet_config.data.owner_identities) 0) ∧
        bitGet inp.wallet_config.data.owner_identities g = false ∧
        (∀ g', g' < g → bitGet inp.wallet_config.data.owner_identities g' = true) ∧
        r.wallet_config.owners = inp.wallet_config.data.owners + 1 ∧
        r.wallet_config.owner_identities =
          setRecordBit inp.wallet_config.data.owner_identities g true ∧
        popcount r.wallet_config.owner_identities =
          popcount inp.wallet_config.data.owner_identities + 1 ∧
        bitGet r.wallet_config.owner_identities g = true ∧
        (∀ g', g' ≠ g →
          bitGet r.wallet_config.owner_identities g' =
            bitGet inp.wallet_config.data.owner_identities g') ∧
        r.new_auth = some { discriminator := .WalletAuth, owner := newOwner,
                            wallet := inp.wallet_config.key,
                            added_time := inp.now, id := g,
                            is_initialized := true }) := by
  by_cases h255 : inp.wallet_config.data.owners = 255
  · have heval : close_proposal inp = .error (.Custom .MaximumOwnersReached) := by
      unfold close_proposal
      rw [if_neg (by simp [hop1]), if_neg (by simp [hop2]),
        if_neg (by simp [hpinit]), if_neg (by simp [hprop]),
        if_neg (by simp [hvk]), if_neg (by simp [hvinit]),
        if_neg (by simp [hcinit]), if_neg (by omega), if_neg (by simp [hn]),
        if_neg (by simp [hq]), hP, hE]
      dsimp only
      rw [if_neg (by simp), if_neg (by simp), if_neg (by simp), if_pos h255]
    exact ⟨⟨fun _ => h255, fun _ => heval⟩, fun hne => absurd h255 hne⟩
  · obtain ⟨hbp, hbit, hfree, hlow⟩ := scan_finds_lowest_unset
      inp.wallet_config.data.owner_identities hlen hbytes (by omega)
    have hdiv : (firstNonFullByte inp.wallet_config.data.owner_identities * 8 +
        leadingOnes (inp.wallet_config.data.owner_identities.getD
          (firstNonFullByte inp.wallet_config.data.owner_identities) 0)) / 8 =
        firstNonFullByte inp.wallet_config.data.owner_identities := by omega
    have hmod : (firstNonFullByte inp.wallet_config.data.owner_identities * 8 +
        leadingOnes (inp.wallet_config.data.owner_identities.getD
          (firstNonFullByte inp.wallet_config.data.owner_identities) 0)) % 8 =
        leadingOnes (inp.wallet_config.data.owner_identities.getD
          (firstNonFullByte inp.wallet_config.data.owner_identities) 0) := by omega
    have hsetrec : setRecordBit inp.wallet_config.data.owner_identities
        (firstNonFullByte inp.wallet_config.data.owner_identities * 8 +
          leadingOnes (inp.wallet_config.data.owner_identities.getD
            (firstNonFullByte inp.wallet_config.data.owner_identities) 0)) true =
        inp.wallet_config.data.owner_identities.set
          (firstNonFullByte inp.wallet_config.data.owner_identities)
          (charsToByte ((bitChars (inp.wallet_config.data.owner_identities.getD
            (firstNonFullByte inp.wallet_config.data.owner_identities) 0)).set
            (leadingOnes (inp.wallet_config.data.owner_identities.getD
              (firstNonFullByte inp.wallet_config.data.owner_identities) 0)) true)) := by
      rw [setRecordBit, hdiv, hmod]
    have heval : close_proposal inp = .ok
        { proposal := { inp.proposal.data with is_initialized := false },
          vote_count := { inp.vote_count.data with is_initialized := false },
          wallet_config := { inp.wallet_config.data with
            owner_identities := inp.wallet_config.data.owner_identities.set
              (firstNonFullByte inp.wallet_config.data.owner_identities)
              (charsToByte ((bitChars (inp.wallet_config.data.owner_identities.getD
                (firstNonFullByte inp.wallet_config.data.owner_identities) 0)).set
                (leadingOnes (inp.wallet_config.data.owner_identities.getD
                  (firstNonFullByte inp.wallet_config.data.owner_identities) 0)) true)),
            owners := (inp.wallet_config.data.owners + 1) % 256 },
          proposer_lamports := inp.proposer.lamports + inp.proposal.lamports +
            inp.vote_count.lamports,
          transfer_effect := none,
          new_auth := some { discriminator := .WalletAuth, owner := newOwner,
                             wallet := inp.wallet_config.key,
                             added_time := inp.now,
                             id := firstNonFullByte inp.wallet_config.data.owner_identities * 8 +
                               leadingOnes (inp.wallet_config.data.owner_identities.getD
                                 (firstNonFullByte inp.wallet_config.data.owner_identities) 0),
                             is_initialized := true } } := by
      unfold close_proposal
      rw [if_neg (by simp [hop1]), if_neg (by simp [hop2]),
        if_neg (by simp [hpinit]), if_neg (by simp [hprop]),
        if_neg (by simp [hvk]), if_neg (by simp [hvinit]),
        if_neg (by simp [hcinit]), if_neg (by omega), if_neg (by simp [hn]),
        if_neg (by simp [hq]), hP, hE]
      dsimp only
      rw [if_neg (by simp), if_neg (by simp), if_neg (by simp), if_neg h255,
        replaceRangeBit, if_pos hbit]
      dsimp only
      rw [if_pos (by omega)]
    constructor
    · constructor
      · intro h
        rw [heval] at h
        exact absurd h (by simp)
      · intro h
        exact absurd h h255
    · intro _
      refine ⟨_, _, heval, rfl, hfree, hlow, ?_, ?_, ?_, ?_, ?_, rfl⟩
      · show (inp.wallet_config.data.owners + 1) % 256 =
          inp.wallet_config.data.owners + 1
        omega
      · exact hsetrec.symm
      · show popcount (inp.wallet_config.data.owner_identities.set _ _) = _
        rw [← hsetrec]
        exact popcount_setRecordBit_true _ _ (by omega) hbytes hfree
      · show bitGet (inp.wallet_config.data.owner_identities.set _ _) _ = true
        rw [← hsetrec]
        exact bitGet_setRecordBit_self _ _ _ (by omega)
      · intro g' hg'
        show bitGet (inp.wallet_config.data.owner_identities.set _ _) g' = _
        rw [← hsetrec]
        exact bitGet_setRecordBit_other _ _ _ _ hg'

/-- A 2-of-3 wallet (owners at slots 0, 1, 2) whose AddOwner(8) proposal
holds 2 votes, meeting floor(3 * 2 / 3) = 2. -/
def c5Config : WalletConfig :=
  { discriminator := .WalletConfig, m := 2, n := 3, owners := 3,
    owner_identities := createBitmap 3, proposal_lifetime := 3600,
    is_initialized := true }

def c5Input : CloseInput :=
  { program_id := 1,
    proposer := { key := 5, is_signer := false, lamports := 10 },
    wallet_config := { key := 100, is_signer := false, owner_prog := 1,
                       lamports := 50, data := c5Config },
    proposal := { key := 200, owner_prog := 1, lamports := 30,
                  data := { discriminator := .Proposal, wallet := 100,
                            proposer := 5, proposal := .AddOwner 8,
                            is_initialized := true } },
    vote_count := { key := pdaVotes 100 200, lamports := 20,
                    data := { discriminator := .VoteCount, proposed_time := 0,
                              votes := 2, vote_record := singleBitRecord 2,
                              is_initialized := true } },
    extras := .addOwner 5 true (pdaOwner 100 8) SYSTEM_PROGRAM_ID,
    now := 10 }

theorem c5_close_proposal_add_owner_witness :
    c5Config.owners ≠ 255 ∧
    ∃ r g, close_proposal c5Input = .ok r ∧
      r.wallet_config.owners = c5Config.owners + 1 ∧
      bitGet c5Config.owner_identities g = false ∧
      (∀ g', g' < g → bitGet c5Config.owner_identities g' = true) ∧
      r.new_auth = some { discriminator := .WalletAuth, owner := 8, wallet := 100,
                          added_time := 10, id := g, is_initialized := true } := by
  refine ⟨by decide, ?_⟩
  obtain ⟨r, g, hok, -, hfree, hlow, ho, -, -, -, -, hauth⟩ :=
    (c5_close_proposal_add_owner c5Input 8 5 (by decide) (by decide) (by decide)
      (by decide) (by decide) (by decide) (by decide) (by decide) (by decide)
      (by decide) (by decide) (by decide) (by decide) (by decide)
      (by decide) (by decide)).2 (by decide)
  exact ⟨r, g, hok, ho, hfree, hlow, hauth⟩

/-! ## Inversion of successful handler runs (for the reachable-state machine) -/

theorem buildOtherAuths_ok_inv (wallet : Pubkey) (now : Int) :
    ∀ (owners keys : List Pubkey) (id0 : Nat) (l : List WalletAuth),
      buildOtherAuths wallet now owners keys id0 = .ok l →
      l.map (fun a => a.id) = List.range' id0 owners.length ∧
      ∀ a ∈ l, a.is_initialized = true := by
  intro owners
  induction owners with
  | nil =>
      intro keys id0 l h
      simp only [buildOtherAuths, Except.ok.injEq] at h
      subst h
      simp
  | cons o os ih =>
      intro keys id0 l h
      cases keys with
      | nil => simp [buildOtherAuths] at h
      | cons k ks =>
          simp only [buildOtherAuths] at h
          split at h
          · exact absurd h (by simp)
          · split at h
            · exact absurd h (by simp)
            · rename_i tail heq
              simp only [Except.ok.injEq] at h
              subst h
              obtain ⟨h1, h2⟩ := ih ks (id0 + 1) tail heq
              refine ⟨?_, ?_⟩
              · simp only [List.map_cons, h1, List.length_cons, List.range'_succ]
              · intro a ha
                rcases List.mem_cons.mp ha with rfl | ha'
                · rfl
                · exact h2 a ha'

theorem create_wallet_ok_inv (inp : CreateWalletInput) (r : CreateWalletResult)
    (h : create_wallet inp = .ok r) :
    600 ≤ inp.proposal_lifetime ∧
    1 + inp.owners.length ≤ 255 ∧
    r.config = { discriminator := .WalletConfig, m := inp.m, n := inp.n,
                 owners := 1 + inp.owners.length,
                 owner_identities := createBitmap (1 + inp.owners.length),
                 proposal_lifetime := inp.proposal_lifetime,
                 is_initialized := true } ∧
    r.auths.map (fun a => a.id) = List.range' 0 (1 + inp.owners.length) ∧
    ∀ a ∈ r.auths, a.is_initialized = true := by
  unfold create_wallet at h
  split at h
  · exact absurd h (by simp)
  · split at h
    · exact absurd h (by simp)
    · split at h
      · exact absurd h (by simp)
      · split at h
        · exact absurd h (by simp)
        · split at h
          · exact absurd h (by simp)
          · split at h
            · exact absurd h (by simp)
            · rename_i hlife _ _ _ _ _
              split at h
              · exact absurd h (by simp)
              · rename_i others heq
                dsimp only at h
                split at h
                · rename_i hcount
                  simp only [Except.ok.injEq] at h
                  subst h
                  obtain ⟨h1, h2⟩ := buildOtherAuths_ok_inv _ _ _ _ _ _ heq
                  refine ⟨by omega, hcount, rfl, ?_, ?_⟩
                  · simp only [List.map_cons, h1]
                    rw [show (1 : Nat) + inp.owners.length = inp.owners.length + 1
                      by omega, List.range'_succ]
                  · intro a ha
                    rcases List.mem_cons.mp ha with rfl | ha'
                    · rfl
                    · exact h2 a ha'
                · exact absurd h (by simp)

theorem give_up_ownership_ok_inv (inp : GiveUpInput) (r : GiveUpResult)
    (h : give_up_ownership inp = .ok r) :
    inp.wallet_config.data.is_initialized = true ∧
    inp.wallet_auth.data.is_initialized = true ∧
    r.user_details = { inp.wallet_auth.data with is_initialized := false } ∧
    ((inp.wallet_config.data.owners = 1 ∧
      r.wallet_details = { inp.wallet_config.data with is_initialized := false }) ∨
     (inp.wallet_config.data.owners ≠ 1 ∧
      r.wallet_details = { inp.wallet_config.data with
        owner_identities := setRecordBit inp.wallet_config.data.owner_identities
          inp.wallet_auth.data.id false,
        owners := (inp.wallet_config.data.owners + 255) % 256 })) := by
  unfold give_up_ownership at h
  split at h
  · exact absurd h (by simp)
  · split at h
    · exact absurd h (by simp)
    · split at h
      · exact absurd h (by simp)
      · split at h
        · exact absurd h (by simp)
        · split at h
          · exact absurd h (by simp)
          · rename_i h1 h2 h3 h4 h5
            split at h
            · rename_i howners
              split at h
              · simp only [Except.ok.injEq] at h
                subst h
                exact ⟨by simpa using h3, by simpa using h5, rfl,
                  Or.inl ⟨howners, rfl⟩⟩
              · split at h
                · exact absurd h (by simp)
                · split at h
                  · exact absurd h (by simp)
                  · split at h
                    · exact absurd h (by simp)
                    · simp only [Except.ok.injEq] at h
                      subst h
                      exact ⟨by simpa using h3, by simpa using h5, rfl,
                        Or.inl ⟨howners, rfl⟩⟩
            · rename_i howners
              simp only [Except.ok.injEq] at h
              subst h
              exact ⟨by simpa using h3, by simpa using h5, rfl,
                Or.inr ⟨howners, rfl⟩⟩

theorem create_proposal_ok_inv (inp : CreateProposalInput) (r : CreateProposalResult)
    (h : create_proposal inp = .ok r) :
    r.proposal.proposal = inp.new_proposal ∧
    r.proposal.is_initialized = true ∧
    r.vote_count.is_initialized = true ∧
    ∀ d, inp.new_proposal = .ChangeProposalLifetime d → 600 ≤ d := by
  unfold create_proposal at h
  split at h
  · exact absurd h (by simp)
  · split at h
    · exact absurd h (by simp)
    · split at h
      · exact absurd h (by simp)
      · split at h
        · exact absurd h (by simp)
        · split at h
          · exact absurd h (by simp)
          · split at h
            · exact absurd h (by simp)
            · split at h
              · exact absurd h (by simp)
              · split at h
                · exact absurd h (by simp)
                · rename_i hdur
                  split at h
                  · exact absurd h (by simp)
                  · simp only [Except.ok.injEq] at h
                    subst h
                    refine ⟨rfl, rfl, rfl, ?_⟩
                    intro d hd
                    rw [hd] at hdur
                    simp at hdur
                    omega

/-- The global bit index selected by the AddOwner free-slot scan. -/
def freeSlotId (bm : List Nat) : Nat :=
  firstNonFullByte bm * 8 + leadingOnes (bm.getD (firstNonFullByte bm) 0)

theorem close_proposal_ok_inv (inp : CloseInput) (r : CloseResult)
    (h : close_proposal inp = .ok r) :
    inp.proposal.data.is_initialized = true ∧
    inp.wallet_config.data.is_initialized = true ∧
    r.proposal = { inp.proposal.data with is_initialized := false } ∧
    r.vote_count = { inp.vote_count.data with is_initialized := false } ∧
    ((r.wallet_config = inp.wallet_config.data ∧ r.new_auth = none) ∨
     (∃ d, inp.proposal.data.proposal = .ChangeProposalLifetime d ∧
       r.wallet_config = { inp.wallet_config.data with proposal_lifetime := d } ∧
       r.new_auth = none) ∨
     (∃ user, inp.proposal.data.proposal = .AddOwner user ∧
       inp.wallet_config.data.owners ≠ 255 ∧
       leadingOnes (inp.wallet_config.data.owner_identities.getD
         (firstNonFullByte inp.wallet_config.data.owner_identities) 0) < 8 ∧
       freeSlotId inp.wallet_config.data.owner_identities ≤ 255 ∧
       r.wallet_config = { inp.wallet_config.data with
                           owner_identities :=
                             setRecordBit inp.wallet_config.data.owner_identities
                               (freeSlotId inp.wallet_config.data.owner_identities) true,
                           owners := (inp.wallet_config.data.owners + 1) % 256 } ∧
       r.new_auth = some { discriminator := .WalletAuth, owner := user,
                           wallet := inp.wallet_config.key, added_time := inp.now,
                           id := freeSlotId inp.wallet_config.data.owner_identities,
                           is_initialized := true })) := by
  unfold close_proposal at h
  by_cases h1 : inp.wallet_config.owner_prog ≠ inp.program_id
  · rw [if_pos h1] at h
    exact absurd h (by simp)
  · rw [if_neg h1] at h
    by_cases h2 : inp.proposal.owner_prog ≠ inp.program_id
    · rw [if_pos h2] at h
      exact absurd h (by simp)
    · rw [if_neg h2] at h
      by_cases hpinit : ¬inp.proposal.data.is_initialized
      · rw [if_pos hpinit] at h
        exact absurd h (by simp)
      · rw [if_neg hpinit] at h
        by_cases h3 : inp.proposer.key ≠ inp.proposal.data.proposer
        · rw [if_pos h3] at h
          exact absurd h (by simp)
        · rw [if_neg h3] at h
          by_cases h4 : inp.vote_count.key ≠
              pdaVotes inp.wallet_config.key inp.proposal.key
          · rw [if_pos h4] at h
            exact absurd h (by simp)
          · rw [if_neg h4] at h
            by_cases hvinit : ¬inp.vote_count.data.is_initialized
            · rw [if_pos hvinit] at h
              exact absurd h (by simp)
            · rw [if_neg hvinit] at h
              dsimp only at h
              by_cases hcinit : ¬inp.wallet_config.data.is_initialized
              · rw [if_pos hcinit] at h
                exact absurd h (by simp)
              · rw [if_neg hcinit] at h
                by_cases hexp : inp.now > inp.vote_count.data.proposed_time +
                    inp.wallet_config.data.proposal_lifetime
                · rw [if_pos hexp] at h
                  simp only [Except.ok.injEq] at h
                  subst h
                  exact ⟨by simpa using hpinit, by simpa using hcinit, rfl, rfl,
                    Or.inl ⟨rfl, rfl⟩⟩
                · rw [if_neg hexp] at h
                  by_cases hn : inp.wallet_config.data.n = 0
                  · rw [if_pos hn] at h
                    exact absurd h (by simp)
                  · rw [if_neg hn] at h
                    by_cases hq : inp.vote_count.data.votes <
                        (inp.wallet_config.data.owners * inp.wallet_config.data.m) %
                          256 / inp.wallet_config.data.n
                    · rw [if_pos hq] at h
                      exact absurd h (by simp)
                    · rw [if_neg hq] at h
                      cases hP : inp.proposal.data.proposal with
                      | Transfer mint recv amt =>
                          rw [hP] at h
                          dsimp only at h
                          cases hE : inp.extras with
                          | noneSupplied =>
                              rw [hE] at h
                              simp at h
                          | addOwner pk ps ak sk =>
                              rw [hE] at h
                              simp at h
                          | transfer src dstk authk tokk =>
                              rw [hE] at h
                              dsimp only at h
                              by_cases c1 : src.data.mint ≠ mint ∨
                                  src.data.owner ≠ authk
                              · rw [if_pos c1] at h
                                exact absurd h (by simp)
                              · rw [if_neg c1] at h
                                by_cases c2 : src.data.amount < amt
                                · rw [if_pos c2] at h
                                  exact absurd h (by simp)
                                · rw [if_neg c2] at h
                                  by_cases c3 : dstk ≠ recv
                                  · rw [if_pos c3] at h
                                    exact absurd h (by simp)
                                  · rw [if_neg c3] at h
                                    by_cases c4 : authk ≠
                                        pdaAuthority inp.wallet_config.key
                                    · rw [if_pos c4] at h
                                      exact absurd h (by simp)
                                    · rw [if_neg c4] at h
                                      by_cases c5 : tokk ≠ TOKEN_PROGRAM_ID
                                      · rw [if_pos c5] at h
                                        exact absurd h (by simp)
                                      · rw [if_neg c5] at h
                                        simp only [Except.ok.injEq] at h
                                        subst h
                                        exact ⟨by simpa using hpinit,
                                          by simpa using hcinit, by simp [hP],
                                          rfl, Or.inl ⟨rfl, rfl⟩⟩
                      | AddOwner user =>
                          rw [hP] at h
                          dsimp only at h
                          cases hE : inp.extras with
                          | noneSupplied =>
                              rw [hE] at h
                              simp at h
                          | transfer src dstk authk tokk =>
                              rw [hE] at h
                              simp at h
                          | addOwner payerKey payerSigner authKey sysKey =>
                              rw [hE] at h
                              dsimp only at h
                              by_cases c1 : ¬payerSigner
                              · rw [if_pos c1] at h
                                exact absurd h (by simp)
                              · rw [if_neg c1] at h
                                by_cases c2 : authKey ≠
                                    pdaOwner inp.wallet_config.key user
                                · rw [if_pos c2] at h
                                  exact absurd h (by simp)
                                · rw [if_neg c2] at h
                                  by_cases c3 : sysKey ≠ SYSTEM_PROGRAM_ID
                                  · rw [if_pos c3] at h
                                    exact absurd h (by simp)
                                  · rw [if_neg c3] at h
                                    by_cases howners :
                                        inp.wallet_config.data.owners = 255
                                    · rw [if_pos howners] at h
                                      exact absurd h (by simp)
                                    · rw [if_neg howners] at h
                                      rw [replaceRangeBit] at h
                                      by_cases hbit : leadingOnes
                                          (inp.wallet_config.data.owner_identities.getD
                                            (firstNonFullByte
                                              inp.wallet_config.data.owner_identities) 0) < 8
                                      · rw [if_pos hbit] at h
                                        dsimp only at h
                                        by_cases hle : firstNonFullByte
                                            inp.wallet_config.data.owner_identities * 8 +
                                            leadingOnes
                                              (inp.wallet_config.data.owner_identities.getD
                                                (firstNonFullByte
                                                  inp.wallet_config.data.owner_identities) 0) ≤ 255
                                        · rw [if_pos hle] at h
                                          simp only [Except.ok.injEq] at h
                                          subst h
                                          have hsr : setRecordBit
                                              inp.wallet_config.data.owner_identities
                                              (freeSlotId inp.wallet_config.data.owner_identities) true =
                                              inp.wallet_config.data.owner_identities.set
                                                (firstNonFullByte inp.wallet_config.data.owner_identities)
                                                (charsToByte ((bitChars (inp.wallet_config.data.owner_identities.getD
                                                  (firstNonFullByte inp.wallet_config.data.owner_identities) 0)).set
                                                  (leadingOnes (inp.wallet_config.data.owner_identities.getD
                                                    (firstNonFullByte inp.wallet_config.data.owner_identities) 0)) true)) := by
                                            have hdiv : freeSlotId
                                                inp.wallet_config.data.owner_identities / 8 =
                                                firstNonFullByte
                                                  inp.wallet_config.data.owner_identities := by
                                              rw [freeSlotId]
                                              omega
                                            have hmod : freeSlotId
                                                inp.wallet_config.data.owner_identities % 8 =
                                                leadingOnes
                                                  (inp.wallet_config.data.owner_identities.getD
                                                    (firstNonFullByte
                                                      inp.wallet_config.data.owner_identities) 0) := by
                                              rw [freeSlotId]
                                              omega
                                            rw [setRecordBit, hdiv, hmod]
                                          refine ⟨by simpa using hpinit,
                                            by simpa using hcinit, by simp [hP],
                                            rfl,
                                            Or.inr (Or.inr ⟨user, rfl, howners,
                                              hbit, hle, ?_, rfl⟩)⟩
                                          rw [hsr]
                                        · rw [if_neg hle] at h
                                          exact absurd h (by simp)
                                      · rw [if_neg hbit] at h
                                        dsimp only at h
                                        exact absurd h (by simp)
                      | ChangeProposalLifetime d =>
                          rw [hP] at h
                          dsimp only at h
                          simp only [Except.ok.injEq] at h
                          subst h
                          exact ⟨by simpa using hpinit, by simpa using hcinit,
                            by simp [hP], rfl, Or.inr (Or.inl ⟨d, rfl, rfl, rfl⟩)⟩

/-! ## Reachable states of one wallet (for C2 and C8) -/

/-- The persisted records of one wallet: its config account, the WalletAuth
accounts created for it so far, and its proposal/vote-count account pairs. -/
structure Chain where
  config : WalletConfig
  auths : List WalletAuth
  proposals : List (Proposal × VoteCount)

/-- States reachable through the handlers.  Each step requires the handler
to succeed on an input whose persisted account data matches the current
state and threads the handler's outputs back; failed invocations abort
atomically and change nothing, so only ok runs appear. -/
inductive Reachable : Chain → Prop
  | created (inp : CreateWalletInput) (r : CreateWalletResult)
      (h : create_wallet inp = .ok r) :
      Reachable ⟨r.config, r.auths, []⟩
  | gaveUp (s : Chain) (inp : GiveUpInput) (r : GiveUpResult) (i : Nat)
      (hs : Reachable s)
      (hcfg : inp.wallet_config.data = s.config)
      (hauth : s.auths[i]? = some inp.wallet_auth.data)
      (h : give_up_ownership inp = .ok r) :
      Reachable ⟨r.wallet_details, s.auths.set i r.user_details, s.proposals⟩
  | proposed (s : Chain) (inp : CreateProposalInput) (r : CreateProposalResult)
      (hs : Reachable s)
      (hcfg : inp.wallet_config.data = s.config)
      (h : create_proposal inp = .ok r) :
      Reachable ⟨s.config, s.auths, (r.proposal, r.vote_count) :: s.proposals⟩
  | voted (s : Chain) (inp : VoteInput) (r : VoteCount) (i : Nat)
      (p : Proposal) (vc : VoteCount)
      (hs : Reachable s)
      (hcfg : inp.wallet_config.data = s.config)
      (hpv : s.proposals[i]? = some (p, vc))
      (hvc : inp.vote_count.data = vc)
      (h : vote inp = .ok r) :
      Reachable ⟨s.config, s.auths, s.proposals.set i (p, r)⟩
  | closed (s : Chain) (inp : CloseInput) (r : CloseResult) (i : Nat)
      (p : Proposal) (vc : VoteCount)
      (hs : Reachable s)
      (hcfg : inp.wallet_config.data = s.config)
      (hpv : s.proposals[i]? = some (p, vc))
      (hp : inp.proposal.data = p)
      (hvc : inp.vote_count.data = vc)
      (h : close_proposal inp = .ok r) :
      Reachable ⟨r.wallet_config,
        (match r.new_auth with
         | some a => s.auths ++ [a]
         | none => s.auths),
        s.proposals.set i (r.proposal, r.vote_count)⟩

/-- The inductive invariant carried through every reachable state. -/
def ChainInv (s : Chain) : Prop :=
  s.config.owner_identities.length = 32 ∧
  (∀ b ∈ s.config.owner_identities, b < 256) ∧
  (s.config.is_initialized = true →
    popcount s.config.owner_identities = s.config.owners ∧
    1 ≤ s.config.owners ∧ s.config.owners ≤ 255 ∧
    600 ≤ s.config.proposal_lifetime) ∧
  (∀ (i : Nat) (a : WalletAuth), s.auths[i]? = some a → a.is_initialized = true →
    a.id < 256 ∧ (s.config.is_initialized = true →
      bitGet s.config.owner_identities a.id = true)) ∧
  (∀ (i j : Nat) (a b : WalletAuth), i ≠ j → s.auths[i]? = some a →
    s.auths[j]? = some b →
    a.is_initialized = true → b.is_initialized = true → a.id ≠ b.id) ∧
  (∀ pv ∈ s.proposals, pv.1.is_initialized = true →
    ∀ d, pv.1.proposal = ProposalType.ChangeProposalLifetime d → 600 ≤ d)

theorem getElem?_some_lt {α} (l : List α) (i : Nat) (a : α)
    (h : l[i]? = some a) : i < l.length := by
  by_contra hge
  push_neg at hge
  rw [List.getElem?_eq_none hge] at h
  cases h

theorem getElem?_some_mem {α} (l : List α) (i : Nat) (a : α)
    (h : l[i]? = some a) : a ∈ l := by
  have hi := getElem?_some_lt l i a h
  rw [List.getElem?_eq_getElem hi] at h
  simp only [Option.some.injEq] at h
  subst h
  exact List.getElem_mem hi

theorem getElem?_singleton {α} (x a : α) (k : Nat)
    (h : ([x] : List α)[k]? = some a) : k = 0 ∧ a = x := by
  cases k with
  | zero =>
      simp only [List.getElem?_cons_zero, Option.some.injEq] at h
      exact ⟨rfl, h.symm⟩
  | succ k => simp at h

theorem chain_inv (s : Chain) (h : Reachable s) : ChainInv s := by
  induction h with
  | created inp r hok =>
      obtain ⟨hlife, hcnt, hcfg, hids, hinit⟩ := create_wallet_ok_inv inp r hok
      have idFact : ∀ (i : Nat) (a : WalletAuth), r.auths[i]? = some a →
          a.id = i ∧ i < 1 + inp.owners.length := by
        intro i a hia
        have hmap : (r.auths.map (fun a => a.id))[i]? = some a.id := by
          rw [List.getElem?_map, hia]
          rfl
        rw [hids] at hmap
        have hi : i < 1 + inp.owners.length := by
          by_contra hge
          push_neg at hge
          rw [List.getElem?_eq_none (by simpa using hge)] at hmap
          cases hmap
        rw [List.getElem?_range' _ _ hi] at hmap
        simp only [Option.some.injEq] at hmap
        omega
      refine ⟨?_, ?_, ?_, ?_, ?_, ?_⟩
      · rw [hcfg]
        exact createBitmap_length _
      · rw [hcfg]
        exact createBitmap_wf _ (by omega) (by omega)
      · intro _
        rw [hcfg]
        dsimp only
        exact ⟨popcount_createBitmap _ (by omega) (by omega), by omega, by omega, hlife⟩
      · intro i a hia _
        obtain ⟨haid, hi⟩ := idFact i a hia
        refine ⟨by omega, fun _ => ?_⟩
        rw [hcfg]
        dsimp only
        rw [bitGet_createBitmap _ _ (by omega) (by omega) (by omega)]
        simp
        omega
      · intro i j a b hne hia hjb _ _
        obtain ⟨haid, _⟩ := idFact i a hia
        obtain ⟨hbid, _⟩ := idFact j b hjb
        omega
      · intro pv hpv
        simp at hpv
  | gaveUp s' inp r i hs hcfg hauth hok ih =>
      obtain ⟨hlen, hwf, hcfgI, hbits, hdist, hprop⟩ := ih
      obtain ⟨hciT, haiT, hud, hbranch⟩ := give_up_ownership_ok_inv inp r hok
      rw [hcfg] at hciT
      obtain ⟨hpc, h1o, h255, hlife⟩ := hcfgI hciT
      have hi : i < s'.auths.length := getElem?_some_lt _ _ _ hauth
      have hleav := hbits i _ hauth haiT
      rcases hbranch with ⟨how1, hwd⟩ | ⟨hownN, hwd⟩
      · -- last owner left: the config account is deactivated
        have hcc : r.wallet_details = { s'.config with is_initialized := false } := by
          rw [hwd, hcfg]
        rw [hcc]
        refine ⟨hlen, hwf, ?_, ?_, ?_, hprop⟩
        · intro hx
          exact Bool.noConfusion hx
        · intro idx a hidx hact
          by_cases hij : idx = i
          · subst hij
            rw [List.getElem?_set_self hi] at hidx
            simp only [Option.some.injEq] at hidx
            rw [← hidx, hud] at hact
            exact Bool.noConfusion hact
          · rw [List.getElem?_set_ne (Ne.symm hij)] at hidx
            exact ⟨(hbits idx a hidx hact).1, fun hx => Bool.noConfusion hx⟩
        · intro idx jdx a b hne hidx hjdx ha hb
          by_cases h1 : idx = i
          · subst h1
            rw [List.getElem?_set_self hi] at hidx
            simp only [Option.some.injEq] at hidx
            rw [← hidx, hud] at ha
            exact Bool.noConfusion ha
          · by_cases h2 : jdx = i
            · subst h2
              rw [List.getElem?_set_self hi] at hjdx
              simp only [Option.some.injEq] at hjdx
              rw [← hjdx, hud] at hb
              exact Bool.noConfusion hb
            · rw [List.getElem?_set_ne (Ne.symm h1)] at hidx
              rw [List.getElem?_set_ne (Ne.symm h2)] at hjdx
              exact hdist idx jdx a b hne hidx hjdx ha hb
      · -- a non-last owner left: its bit is cleared and the count decremented
        rw [hcfg] at hownN
        have hcc : r.wallet_details = { s'.config with
            owner_identities := setRecordBit s'.config.owner_identities
              inp.wallet_auth.data.id false,
            owners := (s'.config.owners + 255) % 256 } := by
          rw [hwd, hcfg]
        rw [hcc]
        have hdiv8 : inp.wallet_auth.data.id / 8 < s'.config.owner_identities.length := by
          rw [hlen]
          have := hleav.1
          omega
        refine ⟨?_, ?_, ?_, ?_, ?_, hprop⟩
        · exact (length_setRecordBit _ _ _).trans hlen
        · exact mem_setRecordBit_lt _ _ _ hwf
        · intro _
          dsimp only
          have hstep := popcount_setRecordBit_false s'.config.owner_identities
            inp.wallet_auth.data.id hdiv8 hwf (hleav.2 hciT)
          exact ⟨by omega, by omega, by omega, hlife⟩
        · intro idx a hidx hact
          by_cases hij : idx = i
          · subst hij
            rw [List.getElem?_set_self hi] at hidx
            simp only [Option.some.injEq] at hidx
            rw [← hidx, hud] at hact
            exact Bool.noConfusion hact
          · rw [List.getElem?_set_ne (Ne.symm hij)] at hidx
            obtain ⟨haid, habit⟩ := hbits idx a hidx hact
            refine ⟨haid, fun _ => ?_⟩
            have hne2 : a.id ≠ inp.wallet_auth.data.id :=
              hdist idx i a inp.wallet_auth.data hij hidx hauth hact haiT
            exact (bitGet_setRecordBit_other _ _ _ _ hne2).trans (habit hciT)
        · intro idx jdx a b hne hidx hjdx ha hb
          by_cases h1 : idx = i
          · subst h1
            rw [List.getElem?_set_self hi] at hidx
            simp only [Option.some.injEq] at hidx
            rw [← hidx, hud] at ha
            exact Bool.noConfusion ha
          · by_cases h2 : jdx = i
            · subst h2
              rw [List.getElem?_set_self hi] at hjdx
              simp only [Option.some.injEq] at hjdx
              rw [← hjdx, hud] at hb
              exact Bool.noConfusion hb
            · rw [List.getElem?_set_ne (Ne.symm h1)] at hidx
              rw [List.getElem?_set_ne (Ne.symm h2)] at hjdx
              exact hdist idx jdx a b hne hidx hjdx ha hb
  | proposed s' inp r hs hcfg hok ih =>
      obtain ⟨hlen, hwf, hcfgI, hbits, hdist, hprop⟩ := ih
      obtain ⟨hpp, hpi, hvi, hdur⟩ := create_proposal_ok_inv inp r hok
      refine ⟨hlen, hwf, hcfgI, hbits, hdist, ?_⟩
      intro pv hpv hact d hd
      rcases List.mem_cons.mp hpv with rfl | hmem
      · exact hdur d (by rw [← hpp]; exact hd)
      · exact hprop pv hmem hact d hd
  | voted s' inp r i p vc hs hcfg hpv hvc hok ih =>
      obtain ⟨hlen, hwf, hcfgI, hbits, hdist, hprop⟩ := ih
      refine ⟨hlen, hwf, hcfgI, hbits, hdist, ?_⟩
      intro pv hmem hact d hd
      rcases List.mem_or_eq_of_mem_set hmem with hmem' | rfl
      · exact hprop pv hmem' hact d hd
      · exact hprop (p, vc) (getElem?_some_mem _ _ _ hpv) hact d hd
  | closed s' inp r i p vc hs hcfg hpv hp hvc hok ih =>
      obtain ⟨hlen, hwf, hcfgI, hbits, hdist, hprop⟩ := ih
      obtain ⟨hpiT, hciT, hrp, hrvc, hdisj⟩ := close_proposal_ok_inv inp r hok
      rw [hcfg] at hciT
      obtain ⟨hpc, h1o, h255, hlife⟩ := hcfgI hciT
      have hrpF : r.proposal.is_initialized = false := by rw [hrp]
      have hpropNew : ∀ pv ∈ s'.proposals.set i (r.proposal, r.vote_count),
          pv.1.is_initialized = true →
          ∀ d, pv.1.proposal = ProposalType.ChangeProposalLifetime d → 600 ≤ d := by
        intro pv hmem hact d hd
        rcases List.mem_or_eq_of_mem_set hmem with hmem' | rfl
        · exact hprop pv hmem' hact d hd
        · rw [hrpF] at hact
          exact Bool.noConfusion hact
      rcases hdisj with ⟨hwc, hna⟩ | ⟨d, hPd, hwc, hna⟩ |
        ⟨user, hPu, hownN, hbit8, hle255, hwc, hna⟩
      · -- expired closure or Transfer execution: config untouched, no new auth
        have hauths : (match r.new_auth with
            | some a => s'.auths ++ [a]
            | none => s'.auths) = s'.auths := by rw [hna]
        have hcc : r.wallet_config = s'.config := by rw [hwc, hcfg]
        rw [hauths, hcc]
        exact ⟨hlen, hwf, hcfgI, hbits, hdist, hpropNew⟩
      · -- ChangeLifetime execution
        have hauths : (match r.new_auth with
            | some a => s'.auths ++ [a]
            | none => s'.auths) = s'.auths := by rw [hna]
        have hcc : r.wallet_config = { s'.config with proposal_lifetime := d } := by
          rw [hwc, hcfg]
        have hd600 : 600 ≤ d := by
          rw [hp] at hPd hpiT
          exact hprop (p, vc) (getElem?_some_mem _ _ _ hpv) hpiT d hPd
        rw [hauths, hcc]
        exact ⟨hlen, hwf, fun _ => ⟨hpc, h1o, h255, hd600⟩, hbits, hdist, hpropNew⟩
      · -- AddOwner execution
        rw [hcfg] at hownN hle255
        have hna' : r.new_auth = some { discriminator := .WalletAuth, owner := user,
                                        wallet := inp.wallet_config.key,
                                        added_time := inp.now,
                                        id := freeSlotId s'.config.owner_identities,
                                        is_initialized := true } := by
          rw [hna, hcfg]
        have hauths : (match r.new_auth with
            | some a => s'.auths ++ [a]
            | none => s'.auths) =
            s'.auths ++ [{ discriminator := .WalletAuth, owner := user,
                           wallet := inp.wallet_config.key, added_time := inp.now,
                           id := freeSlotId s'.config.owner_identities,
                           is_initialized := true }] := by rw [hna']
        have hcc : r.wallet_config = { s'.config with
            owner_identities := setRecordBit s'.config.owner_identities
              (freeSlotId s'.config.owner_identities) true,
            owners := (s'.config.owners + 1) % 256 } := by
          rw [hwc, hcfg]
        rw [hauths, hcc]
        obtain ⟨hbp, hbtp, hfree, hlow⟩ := scan_finds_lowest_unset
          s'.config.owner_identities hlen hwf (by omega)
        have hfree' : bitGet s'.config.owner_identities
            (freeSlotId s'.config.owner_identities) = false := hfree
        have hgdiv : freeSlotId s'.config.owner_identities / 8 <
            s'.config.owner_identities.length := by
          rw [hlen]
          omega
        refine ⟨?_, ?_, ?_, ?_, ?_, hpropNew⟩
        · exact (length_setRecordBit _ _ _).trans hlen
        · exact mem_setRecordBit_lt _ _ _ hwf
        · intro _
          dsimp only
          have hstep := popcount_setRecordBit_true s'.config.owner_identities
            (freeSlotId s'.config.owner_identities) hgdiv hwf hfree'
          exact ⟨by omega, by omega, by omega, hlife⟩
        · intro idx a hidx hact
          rcases Nat.lt_or_ge idx s'.auths.length with hlt | hge
          · rw [List.getElem?_append_left hlt] at hidx
            obtain ⟨haid, habit⟩ := hbits idx a hidx hact
            refine ⟨haid, fun _ => ?_⟩
            have hbitold := habit hciT
            have hne : a.id ≠ freeSlotId s'.config.owner_identities := by
              intro he
              rw [he, hfree'] at hbitold
              exact Bool.noConfusion hbitold
            exact (bitGet_setRecordBit_other _ _ _ _ hne).trans hbitold
          · rw [List.getElem?_append_right hge] at hidx
            obtain ⟨-, hax⟩ := getElem?_singleton _ _ _ hidx
            subst hax
            refine ⟨by dsimp only; omega, fun _ => ?_⟩
            exact bitGet_setRecordBit_self _ _ _ hgdiv
        · intro idx jdx a b hne hidx hjdx ha hb
          rcases Nat.lt_or_ge idx s'.auths.length with hlt1 | hge1 <;>
            rcases Nat.lt_or_ge jdx s'.auths.length with hlt2 | hge2
          · rw [List.getElem?_append_left hlt1] at hidx
            rw [List.getElem?_append_left hlt2] at hjdx
            exact hdist idx jdx a b hne hidx hjdx ha hb
          · rw [List.getElem?_append_left hlt1] at hidx
            rw [List.getElem?_append_right hge2] at hjdx
            obtain ⟨-, hbx⟩ := getElem?_singleton _ _ _ hjdx
            subst hbx
            have hbitold := (hbits idx a hidx ha).2 hciT
            intro he
            rw [he] at hbitold
            rw [hfree'] at hbitold
            exact Bool.noConfusion hbitold
          · rw [List.getElem?_append_right hge1] at hidx
            rw [List.getElem?_append_left hlt2] at hjdx
            obtain ⟨-, hax⟩ := getElem?_singleton _ _ _ hidx
            subst hax
            have hbitold := (hbits jdx b hjdx hb).2 hciT
            intro he
            rw [← he] at hbitold
            rw [hfree'] at hbitold
            exact Bool.noConfusion hbitold
          · rw [List.getElem?_append_right hge1] at hidx
            rw [List.getElem?_append_right hge2] at hjdx
            obtain ⟨h01, -⟩ := getElem?_singleton _ _ _ hidx
            obtain ⟨h02, -⟩ := getElem?_singleton _ _ _ hjdx
            omega

/-- C2: in every reachable state with an initialized WalletConfig — any
sequence of wallet creation, ownership surrender, proposal creation, voting
and proposal closure (which covers AddOwner execution) — the popcount of the
owner bitmap equals the ownerCount field. -/
theorem c2_popcount_equals_owner_count (s : Chain) (h : Reachable s)
    (hinit : s.config.is_initialized = true) :
    popcount s.config.owner_identities = s.config.owners :=
  ((chain_inv s h).2.2.1 hinit).1

/-- The wallet state created by the concrete three-owner creation c3Input. -/
def c2Chain : Chain :=
  { config := { discriminator := .WalletConfig, m := 2, n := 3, owners := 3,
                owner_identities := createBitmap 3, proposal_lifetime := 3600,
                is_initialized := true },
    auths := [{ discriminator := .WalletAuth, owner := 5, wallet := 100,
                added_time := 50, id := 0, is_initialized := true },
              { discriminator := .WalletAuth, owner := 6, wallet := 100,
                added_time := 50, id := 1, is_initialized := true },
              { discriminator := .WalletAuth, owner := 7, wallet := 100,
                added_time := 50, id := 2, is_initialized := true }],
    proposals := [] }

theorem c2_popcount_equals_owner_count_witness :
    popcount c2Chain.config.owner_identities = c2Chain.config.owners :=
  c2_popcount_equals_owner_count c2Chain
    (Reachable.created c3Input ⟨c2Chain.config, c2Chain.auths⟩ rfl) rfl

/-- C8: every reachable initialized WalletConfig has a proposal lifetime of
at least 600 seconds, and create_proposal rejects a ChangeLifetime payload
below 600 with TooShortLifetime (execution never re-validates the floor, so
the invariant rests entirely on this creation-time check). -/
theorem c8_lifetime_floor :
    (∀ s : Chain, Reachable s → s.config.is_initialized = true →
      600 ≤ s.config.proposal_lifetime) ∧
    (∀ (inp : CreateProposalInput) (d : Int),
      inp.new_proposal = .ChangeProposalLifetime d → d < 600 →
      inp.user.is_signer = true →
      inp.wallet_config.owner_prog = inp.program_id →
      inp.wallet_auth.owner_prog = inp.program_id →
      inp.wallet_auth.key = pdaOwner inp.wallet_config.key inp.user.key →
      inp.proposal_is_signer = true →
      inp.vote_count_key = pdaVotes inp.wallet_config.key inp.proposal_key →
      inp.system_program_key = SYSTEM_PROGRAM_ID →
      create_proposal inp = .error (.Custom .TooShortLifetime)) := by
  constructor
  · intro s h hinit
    exact ((chain_inv s h).2.2.1 hinit).2.2.2
  · intro inp d hP hd h1 h2 h3 h4 h5 h6 h7
    unfold create_proposal
    rw [if_neg (by simp [h1]), if_neg (by simp [h2]), if_neg (by simp [h3]),
      if_neg (by simp [h4]), if_neg (by simp [h5]), if_neg (by simp [h6]),
      if_neg (by simp [h7]), if_pos (by rw [hP]; simpa using hd)]

def c8BadInput : CreateProposalInput :=
  { program_id := 1,
    user := { key := 5, is_signer := true, lamports := 10 },
    wallet_config := { key := 100, is_signer := false, owner_prog := 1,
                       lamports := 50, data := c5Config },
    wallet_auth := { key := pdaOwner 100 5, owner_prog := 1, lamports := 20,
                     data := c6Auth },
    proposal_key := 200, proposal_is_signer := true,
    vote_count_key := pdaVotes 100 200,
    system_program_key := SYSTEM_PROGRAM_ID,
    new_proposal := .ChangeProposalLifetime 300,
    now := 10 }

theorem c8_lifetime_floor_witness :
    600 ≤ c2Chain.config.proposal_lifetime ∧
    create_proposal c8BadInput = .error (.Custom .TooShortLifetime) :=
  ⟨c8_lifetime_floor.1 c2Chain
      (Reachable.created c3Input ⟨c2Chain.config, c2Chain.auths⟩ rfl) rfl,
   c8_lifetime_floor.2 c8BadInput 300 rfl (by decide) (by decide) (by decide)
     (by decide) (by decide) (by decide) (by decide) (by decide)⟩

end NativeMultisig
